import Mathlib

/-
Verification development for the hydrogen game-engine core:
a shallow embedding of the entity/component storage engine
(crates/hydrogen_ecs), the change tracker, the event bus
(crates/hydrogen_core/src/events.rs) and the network replicator
(crates/hydrogen_ecs/src/ecs_net.rs), together with theorems about the
specified behaviour.

Modelling conventions:
  - Rust u32/u64 identifiers (EntityId, ComponentId, ClientId,
    ServerEntityId) are modelled as Nat; the counters involved never
    approach the wrap boundary in any property below.
  - BTreeMap is modelled as an association list sorted by key
    (mapInsert keeps the sort order); iteration is list order.
  - VecDeque is a List with the front at the head.
  - Type-erased Box values of the Component trait are modelled by the
    concrete Component structure below, which carries the component id,
    a payload, and a flag recording whether the value implements the
    SerializableComponent trait.
-/

namespace Hydrogen

/-! ## hydrogen_data_structures/src/selection.rs -/

/-- Selection is either a whitelist or a blacklist of values. -/
inductive Selection (α : Type) where
  | whitelist : List α → Selection α
  | blacklist : List α → Selection α
deriving DecidableEq, Repr

namespace Selection

/-- Selection::none() = Whitelist(vec![]). -/
def none (α : Type) : Selection α := .whitelist []

/-- Selection::all() = Blacklist(vec![]). -/
def all (α : Type) : Selection α := .blacklist []

/-- Selection::contains. -/
def contains [DecidableEq α] : Selection α → α → Bool
  | .whitelist values, v => values.contains v
  | .blacklist values, v => !(values.contains v)

end Selection

/-! ## Identifiers (hydrogen_ecs/src/entity.rs, component.rs, ecs_net.rs) -/

/-- EntityId(pub u32), modelled as Nat. -/
abbrev EntityId := Nat

/-- ComponentId(pub u64), modelled as Nat. -/
abbrev ComponentId := Nat

/-- ClientId(pub u32), modelled as Nat. -/
abbrev ClientId := Nat

/-- ServerEntityId(pub EntityId): on the server the wrapped id is the
local entity id itself. Modelled as Nat. -/
abbrev ServerEntityId := Nat

/-! ## Components (hydrogen_ecs/src/ecs_net.rs Replicate, and the
Component trait of hydrogen_ecs/src/component.rs) -/

/-- The Replicate component (ecs_net.rs). -/
structure Replicate where
  server_entity_id : ServerEntityId
  owner : Option ClientId
  replicate_to : Selection ClientId
  client_writable : Selection ComponentId
  replicated_components : Selection ComponentId
  auto_replicate_changes : Selection ComponentId
deriving DecidableEq, Repr

/-- The distinguished component id of the Replicate type (in Rust a
stable hash of the type name; the concrete value is irrelevant, only
that it is fixed and distinct from the ids of other component types
used in the examples). -/
def Replicate.COMPONENT_ID : ComponentId := 0

/-- Payload of a type-erased component value. `repl` is the Replicate
component; `pos` plays the role of the Position{x, y} example component
of the spec; `raw` stands for any other component type. -/
inductive CompVal where
  | repl : Replicate → CompVal
  | pos : Int → Int → CompVal
  | raw : Nat → CompVal
deriving DecidableEq, Repr

/-- A type-erased component value (Box of the Component trait in Rust):
it reports its own component id (`cid`), carries its payload, and
records whether the concrete type also implements the
SerializableComponent trait. -/
structure Component where
  cid : ComponentId
  val : CompVal
  serializable : Bool
deriving DecidableEq, Repr

/-- Component::component_id(). -/
def Component.component_id (c : Component) : ComponentId := c.cid

/-- Component::as_serializable(): Some only when the concrete type is a
SerializableComponent. -/
def Component.as_serializable (c : Component) : Option Component :=
  if c.serializable then some c else Option.none

/-- Downcast of a component to the concrete Replicate type. In Rust
this is the unsafe pointer cast done by the query macros, which is
justified because a ComponentSet keyed by Replicate::COMPONENT_ID only
ever stores Replicate values; the model matches on the payload and
agrees with the Rust cast on every state reachable through the API. -/
def Component.as_replicate (c : Component) : Option Replicate :=
  match c.val with
  | .repl r => some r
  | _ => Option.none

/-- Helper building the component value holding a Replicate. -/
def mkReplicate (r : Replicate) : Component :=
  ⟨Replicate.COMPONENT_ID, .repl r, true⟩

/-- Network command (ecs_net.rs NetEcsCommand). -/
inductive NetEcsCommand where
  | SetComponent : ServerEntityId → Component → NetEcsCommand
  | DeleteComponent : ServerEntityId → ComponentId → NetEcsCommand
  | DeleteEntity : ServerEntityId → NetEcsCommand
deriving DecidableEq, Repr

/-- NetEcsCommand::server_entity_id(). -/
def NetEcsCommand.server_entity_id : NetEcsCommand → ServerEntityId
  | .SetComponent sid _ => sid
  | .DeleteComponent sid _ => sid
  | .DeleteEntity sid => sid

/-! ## Association-list model of BTreeMap -/

/-- Lookup of a key (BTreeMap::get): first matching entry. -/
def mapGet {α : Type} (k : Nat) : List (Nat × α) → Option α
  | [] => Option.none
  | (k', v) :: rest => if k = k' then some v else mapGet k rest

/-- Insert or replace (BTreeMap::insert), keeping entries sorted by key
when the input is sorted. -/
def mapInsert {α : Type} (k : Nat) (v : α) : List (Nat × α) → List (Nat × α)
  | [] => [(k, v)]
  | (k', v') :: rest =>
    if k < k' then (k, v) :: (k', v') :: rest
    else if k = k' then (k, v) :: rest
    else (k', v') :: mapInsert k v rest

/-- Remove a key (BTreeMap::remove). Keys are unique in a BTreeMap, so
removing every matching entry agrees with it on all faithful states. -/
def mapRemove {α : Type} (k : Nat) (l : List (Nat × α)) : List (Nat × α) :=
  l.filter (fun p => !(decide (p.1 = k)))

/-- In-place update of the value stored under a key (the effect of
BTreeMap::get_mut followed by a mutation); identity when absent. Keys
are unique in a BTreeMap, so mapping over every matching entry agrees
with it on all faithful states. -/
def mapModify {α : Type} (k : Nat) (f : α → α) (l : List (Nat × α)) : List (Nat × α) :=
  l.map (fun p => if p.1 = k then (p.1, f p.2) else p)

/-! ## ComponentSet (hydrogen_ecs/src/component.rs) -/

/-- The container for every instance of a given type of component in a
world: a dense array of optional slots (`components`), a sparse array
from entity index to slot index (`entity_component_indices`), and a
free list of tombstoned slots (`deleted_component_indices`). -/
structure ComponentSet where
  component_id : ComponentId
  components : List (Option Component)
  entity_component_indices : List (Option Nat)
  deleted_component_indices : List Nat
deriving DecidableEq, Repr

namespace ComponentSet

/-- ComponentSet::new. -/
def new (component_id : ComponentId) : ComponentSet :=
  ⟨component_id, [], [], []⟩

/-- Sparse entry for an entity (None both for an absent entry and for
an index beyond the end of the sparse array, exactly as
`entity_component_indices.get(index)` flattened). -/
def idxAt (s : ComponentSet) (e : EntityId) : Option Nat :=
  (s.entity_component_indices.getD e Option.none)

/-- Dense slot content at a slot index (None when out of range). -/
def compAt (s : ComponentSet) (i : Nat) : Option Component :=
  (s.components.getD i Option.none)

/-- ComponentSet::has_entity. -/
def has_entity (s : ComponentSet) (e : EntityId) : Bool :=
  (s.idxAt e).isSome

/-- ComponentSet::get (and the lookup part of get_mut). -/
def get (s : ComponentSet) (e : EntityId) : Option Component :=
  (s.idxAt e).bind s.compAt

/-- ComponentSet::reserve_entity_component_indices. -/
def reserve_entity_component_indices (s : ComponentSet) (highest_id : Nat) : ComponentSet :=
  if s.entity_component_indices.length ≤ highest_id then
    { s with entity_component_indices :=
        s.entity_component_indices ++
          List.replicate (highest_id + 1 - s.entity_component_indices.length) Option.none }
  else s

/-- The insertion path of ComponentSet::set taken when `get_mut` found
nothing for the entity: reserve the sparse array, then reuse a
tombstoned slot from the free list or push a new slot. -/
def setFresh (s : ComponentSet) (e : EntityId) (entry : Component) :
    Option Component × ComponentSet :=
  let s' := s.reserve_entity_component_indices e
  match s'.deleted_component_indices with
  | ci :: rest =>
    (Option.none,
      { s' with
        components := s'.components.set ci (some entry),
        entity_component_indices := s'.entity_component_indices.set e (some ci),
        deleted_component_indices := rest })
  | [] =>
    (Option.none,
      { s' with
        components := s'.components ++ [some entry],
        entity_component_indices :=
          s'.entity_component_indices.set e (some s'.components.length) })

/-- ComponentSet::set. Returns the previous value (if the entity
already had one) and the new set. The source asserts that the component
id of the entry matches that of the set; the definition here records the state
change performed after that assertion passes. -/
def set (s : ComponentSet) (e : EntityId) (entry : Component) :
    Option Component × ComponentSet :=
  match s.idxAt e with
  | some i =>
    match s.compAt i with
    | some old =>
      -- mem::replace through get_mut
      (some old, { s with components := s.components.set i (some entry) })
    | Option.none => s.setFresh e entry
  | Option.none => s.setFresh e entry

/-- ComponentSet::delete. The slot index is pushed on the free list and
the sparse entry cleared before the slot content is taken. -/
def delete (s : ComponentSet) (e : EntityId) : Option Component × ComponentSet :=
  match s.idxAt e with
  | some ci =>
    (s.compAt ci,
      { s with
        deleted_component_indices := s.deleted_component_indices ++ [ci],
        entity_component_indices := s.entity_component_indices.set e Option.none,
        components := s.components.set ci Option.none })
  | Option.none => (Option.none, s)

end ComponentSet

/-! ## World (hydrogen_ecs/src/world.rs)

The World aggregates one ComponentSet per component id, the map from
server entity ids to local entity ids, and the next-entity-id counter.
The change-tracker member (a lazily populated map of cursors behind a
lock, not consulted by any of the operations below) is modelled
separately by `EntityComponentTracker`. -/

structure World where
  components : List (ComponentId × ComponentSet)
  server_entity_id_map : List (ServerEntityId × EntityId)
  next_entity_id : Nat
deriving DecidableEq, Repr

namespace World

/-- World::new. -/
def new : World := ⟨[], [], 0⟩

/-- World::new_entity_id: returns the counter value and increments it. -/
def new_entity_id (w : World) : EntityId × World :=
  (w.next_entity_id, { w with next_entity_id := w.next_entity_id + 1 })

/-- World::entity_id_from_server. -/
def entity_id_from_server (w : World) (sid : ServerEntityId) : EntityId × World :=
  match mapGet sid w.server_entity_id_map with
  | some e => (e, w)
  | Option.none =>
    let (e, w') := w.new_entity_id
    (e, { w' with server_entity_id_map := mapInsert sid e w'.server_entity_id_map })

/-- World::get_component. -/
def get_component (w : World) (e : EntityId) (cid : ComponentId) : Option Component :=
  (mapGet cid w.components).bind (fun s => s.get e)

/-- World::has_component. -/
def has_component (w : World) (e : EntityId) (cid : ComponentId) : Bool :=
  match mapGet cid w.components with
  | some s => s.has_entity e
  | Option.none => false

/-- World::has_entity: an entity exists when some component set holds
it. -/
def has_entity (w : World) (e : EntityId) : Bool :=
  w.components.any (fun p => p.2.has_entity e)

/-- World::set_component_boxed: fetch (or lazily create) the set bound
to the component id of the entry and insert. -/
def set_component_boxed (w : World) (e : EntityId) (c : Component) :
    Option Component × World :=
  match mapGet c.component_id w.components with
  | some s =>
    let (old, s') := s.set e c
    (old, { w with components := mapInsert c.component_id s' w.components })
  | Option.none =>
    let (old, s') := (ComponentSet.new c.component_id).set e c
    (old, { w with components := mapInsert c.component_id s' w.components })

/-- World::delete_component. -/
def delete_component (w : World) (e : EntityId) (cid : ComponentId) :
    Option Component × World :=
  match mapGet cid w.components with
  | some s =>
    ((s.delete e).1, { w with components := mapModify cid (fun t => (t.delete e).2) w.components })
  | Option.none => (Option.none, w)

/-- World::delete_entity: delete the entity from every component set;
returns whether anything was deleted. -/
def delete_entity (w : World) (e : EntityId) : Bool × World :=
  (w.components.any (fun p => ((p.2.delete e).1).isSome),
   { w with components := w.components.map (fun p => (p.1, (p.2.delete e).2)) })

/-- World::execute_net_command. -/
def execute_net_command (w : World) (cmd : NetEcsCommand) : World :=
  let (e, w') := w.entity_id_from_server cmd.server_entity_id
  match cmd with
  | .SetComponent _ c => (w'.set_component_boxed e c).2
  | .DeleteComponent _ cid => (w'.delete_component e cid).2
  | .DeleteEntity _ => (w'.delete_entity e).2

/-- World::get_all_components: all components of an entity in component
id order (BTreeMap iteration). -/
def get_all_components (w : World) (e : EntityId) : List (ComponentId × Component) :=
  w.components.filterMap (fun p => (p.2.get e).map (fun c => (p.1, c)))

/-- World::get_all_serializable_components. -/
def get_all_serializable_components (w : World) (e : EntityId) :
    List (ComponentId × Component) :=
  (w.get_all_components e).filterMap
    (fun p => (p.2.as_serializable).map (fun c => (p.1, c)))

/-- World::required_iter_upper_bound: the number of entity indices the
query scan must cover. -/
def required_iter_upper_bound (w : World) (withIds : List ComponentId) : Nat :=
  if withIds.isEmpty then
    (w.components.map (fun p => p.2.entity_component_indices.length)).foldr max 0
  else
    (withIds.filterMap
      (fun cid => (mapGet cid w.components).map
        (fun s => s.entity_component_indices.length))).foldr max 0

/-- The gathering loop of query_one: fetch each requested component,
aborting at the first missing one. -/
def gather (w : World) (e : EntityId) : List ComponentId → Option (List Component)
  | [] => some []
  | cid :: rest =>
    (w.get_component e cid).bind (fun c => (gather w e rest).map (fun cs => c :: cs))

/-- World::query_one: Some with the gathered components exactly when
the entity passes the with/without filters (and, for an empty `with`
list, exists at all). -/
def query_one (w : World) (e : EntityId) (withIds withoutIds : List ComponentId) :
    Option (List Component) :=
  if withIds.isEmpty ∧ ¬ w.has_entity e then Option.none
  else if withoutIds.any (fun cid => w.has_component e cid) then Option.none
  else w.gather e withIds

/-- World::query: scan entity indices below the required upper bound
and keep those that satisfy query_one. -/
def query (w : World) (withIds withoutIds : List ComponentId) :
    List (EntityId × List Component) :=
  (List.range (w.required_iter_upper_bound withIds)).filterMap
    (fun e => (w.query_one e withIds withoutIds).map (fun cs => (e, cs)))

/-- The expansion of query_one!(world, e, Replicate): a query_one for
the single component id Replicate::COMPONENT_ID followed by the macro
downcast of the returned reference to the concrete Replicate type. -/
def query_one_replicate (w : World) (e : EntityId) : Option Replicate :=
  (w.query_one e [Replicate.COMPONENT_ID] []).bind
    (fun cs => match cs with
      | [c] => c.as_replicate
      | _ => Option.none)

/-- The expansion of query!(world, Replicate): the query for component
ids [Replicate::COMPONENT_ID] with each result downcast to Replicate. -/
def query_replicate (w : World) : List (EntityId × Replicate) :=
  (w.query [Replicate.COMPONENT_ID] []).filterMap
    (fun p => (match p.2 with
      | [c] => c.as_replicate
      | _ => Option.none).map (fun r => (p.1, r)))

/-- World::execute_client_net_command: clients may only set components,
never delete; the Replicate component is protected; the sender must own
the entity and the component id must be client-writable. On any failed
check the world is returned unchanged and nothing is sent back. -/
def execute_client_net_command (w : World) (client_id : ClientId)
    (cmd : NetEcsCommand) : World :=
  match cmd with
  | .SetComponent sid c =>
    let e : EntityId := sid
    if c.component_id = Replicate.COMPONENT_ID then w
    else
      match w.query_one_replicate e with
      | some replicate =>
        if replicate.owner ≠ some client_id then w
        else if ¬ (replicate.client_writable.contains c.component_id) then w
        else (w.set_component_boxed e c).2
      | Option.none => w
  | _ => w

end World

/-! ## EcsReplicator (hydrogen_ecs/src/ecs_net.rs)

The TcpCommunicator collaborator only appends sent messages to its
write queue, so the model returns the list of commands sent during a
call, in send order. -/

structure EcsReplicator where
  client_id : ClientId
  current_entities : List (ServerEntityId × List (ComponentId × Component))
deriving DecidableEq, Repr

namespace EcsReplicator

/-- EcsReplicator::new. -/
def new (client_id : ClientId) : EcsReplicator := ⟨client_id, []⟩

/-- First phase of server_update: make sure all relevant entities are
present in current_entities, and delete the no-longer-qualifying ones. -/
def phase1Step (client : ClientId)
    (acc : List (ServerEntityId × List (ComponentId × Component)) × List NetEcsCommand)
    (p : EntityId × Replicate) :
    List (ServerEntityId × List (ComponentId × Component)) × List NetEcsCommand :=
  let (cur, out) := acc
  let (eid, replicate) := p
  let entity_should_exist_on_client :=
    (replicate.owner = some client) || replicate.replicate_to.contains client
  if entity_should_exist_on_client then
    (match mapGet eid cur with
     | some _ => cur
     | Option.none => mapInsert eid [] cur, out)
  else if (mapGet eid cur).isSome then
    (mapRemove eid cur, out ++ [.DeleteEntity eid])
  else (cur, out)

/-- Inner loop of the rectify phase over the serializable components
currently stored on the entity. Accumulates the updated snapshot for
the entity, the SetComponent sends, and the queued component
deletions. -/
def rectifyCompStep (client : ClientId) (replicate : Replicate) (sid : ServerEntityId)
    (acc : List (ComponentId × Component) × List NetEcsCommand × List (ServerEntityId × ComponentId))
    (p : ComponentId × Component) :
    List (ComponentId × Component) × List NetEcsCommand × List (ServerEntityId × ComponentId) :=
  let (comps, sends, dels) := acc
  let (cid, serializable_component) := p
  let should_exist :=
    (cid = Replicate.COMPONENT_ID) || replicate.replicated_components.contains cid
  match mapGet cid comps with
  | some current_component =>
    if ¬ should_exist then (comps, sends, dels ++ [(sid, cid)])
    else
      -- we do not replicate changes made by the client back to it
      let is_self_client_writable :=
        (replicate.owner = some client) && replicate.client_writable.contains cid
      -- changes to a Replicate component always auto-replicate
      let should_auto_replicate_changes :=
        (current_component.component_id = Replicate.COMPONENT_ID)
          || (!is_self_client_writable && replicate.auto_replicate_changes.contains cid)
      if should_auto_replicate_changes && current_component ≠ serializable_component then
        (mapInsert cid serializable_component comps,
         sends ++ [.SetComponent sid serializable_component], dels)
      else (comps, sends, dels)
  | Option.none =>
    if should_exist then
      (mapInsert cid serializable_component comps,
       sends ++ [.SetComponent sid serializable_component], dels)
    else (comps, sends, dels)

/-- Rectify phase for one snapshot entry: queue deletions for snapshot
components no longer stored in the world, then walk the serializable
components of the entity; if the entity has lost its Replicate
component entirely, queue it for deletion. -/
def rectifyEntity (client : ClientId) (w : World)
    (sid : ServerEntityId) (curComps : List (ComponentId × Component)) :
    List (ComponentId × Component) × List NetEcsCommand × List ServerEntityId
      × List (ServerEntityId × ComponentId) :=
  let eid : EntityId := sid
  match w.query_one_replicate eid with
  | some replicate =>
    let delsA := (curComps.filter (fun p => !(w.has_component eid p.1))).map
      (fun p => (sid, p.1))
    let (comps', sends, delsB) :=
      (w.get_all_serializable_components eid).foldl
        (rectifyCompStep client replicate sid) (curComps, [], [])
    (comps', sends, [], delsA ++ delsB)
  | Option.none => (curComps, [], [sid], [])

/-- EcsReplicator::server_update: phase 1 over the Replicate query,
rectification over the snapshot, then the queued entity deletions and
the queued component deletions. -/
def server_update (rep : EcsReplicator) (w : World) :
    EcsReplicator × List NetEcsCommand :=
  let (cur1, out1) :=
    (w.query_replicate).foldl (phase1Step rep.client_id) (rep.current_entities, [])
  let (cur2, out2, entsDel, compsDel) :=
    cur1.foldl
      (fun acc p =>
        let (newCur, sends, ents, dels) := acc
        let (comps', sends', ents', dels') := rectifyEntity rep.client_id w p.1 p.2
        (newCur ++ [(p.1, comps')], sends ++ sends', ents ++ ents', dels ++ dels'))
      ([], out1, [], [])
  let (cur3, out3) :=
    entsDel.foldl
      (fun acc sid =>
        if (mapGet sid acc.1).isSome then
          (mapRemove sid acc.1, acc.2 ++ [.DeleteEntity sid])
        else acc)
      (cur2, out2)
  let (cur4, out4) :=
    compsDel.foldl
      (fun acc p =>
        match mapGet p.1 acc.1 with
        | some cc =>
          if (mapGet p.2 cc).isSome then
            (mapModify p.1 (mapRemove p.2) acc.1, acc.2 ++ [.DeleteComponent p.1 p.2])
          else acc
        | Option.none => acc)
      (cur3, out3)
  ({ rep with current_entities := cur4 }, out4)

/-- The dynamic type tags involved in EcsReplicator::replicate. The
world hands back a reference to a Box of the Component trait object;
calling as_any() on that reference resolves the blanket AsAny
implementation (dyn_util.rs) at Self = Box of dyn Component, because
that is the first receiver type in the method-resolution chain that is
Sized and satisfies the Any bound (the unsized trait object itself has
no AsAny implementation). The resulting Any value therefore carries the
type id of Box of dyn Component. -/
inductive RustTypeId where
  | boxDynComponent
  | boxDynSerializableComponent
deriving DecidableEq, Repr

/-- The dynamic type id seen through as_any() in replicate. -/
def replicateAsAnyTypeId : RustTypeId := .boxDynComponent

/-- downcast_ref to Box of dyn SerializableComponent as performed by
replicate: succeeds exactly when the dynamic type id equals the target
type id. The two tags are distinct constructors, so this is always
None, faithfully to TypeId inequality of the two box types in Rust. -/
def downcastBoxSerializable (c : Component) : Option Component :=
  if replicateAsAnyTypeId = RustTypeId.boxDynSerializableComponent then some c
  else Option.none

/-- EcsReplicator::replicate: look the component up, attempt the
downcast described above, and on success send it and record it in the
snapshot, returning true; returns false otherwise. -/
def replicate (rep : EcsReplicator) (w : World) (e : EntityId) (cid : ComponentId) :
    Bool × EcsReplicator × List NetEcsCommand :=
  match w.get_component e cid with
  | some component =>
    match downcastBoxSerializable component with
    | some sc =>
      let cc := (mapGet e rep.current_entities).getD []
      (true,
       { rep with current_entities := mapInsert e (mapInsert cid sc cc) rep.current_entities },
       [.SetComponent e sc])
    | Option.none => (false, rep, [])
  | Option.none => (false, rep, [])

end EcsReplicator

/-! ## Change tracker (hydrogen_ecs/src/change_tracker.rs) -/

/-- ComponentTrackerEvent: Added, Changed{old, new}, Removed. -/
inductive ComponentTrackerEvent where
  | Added : Component → ComponentTrackerEvent
  | Changed : Component → Component → ComponentTrackerEvent
  | Removed : Component → ComponentTrackerEvent
deriving DecidableEq, Repr

/-- A change-tracker cursor for one (entity, component) pair. The
`init_flag` field models the source field recording whether update has
ever run (false on a fresh cursor, suppressing the first event). -/
structure EntityComponentTracker where
  entity_id : EntityId
  component_id : ComponentId
  previous_value : Option Component
  init_flag : Bool
deriving DecidableEq, Repr

namespace EntityComponentTracker

/-- EntityComponentTracker::new. -/
def new (e : EntityId) (cid : ComponentId) : EntityComponentTracker :=
  ⟨e, cid, Option.none, false⟩

/-- EntityComponentTracker::update: read the current serializable
value, compare with the remembered previous value, remember the current
value, and emit the event unless this is the first-ever update. -/
def update (t : EntityComponentTracker) (w : World) :
    EntityComponentTracker × Option ComponentTrackerEvent :=
  let was_init := t.init_flag
  let current := (w.get_component t.entity_id t.component_id).bind Component.as_serializable
  match t.previous_value, current with
  | Option.none, some cur =>
    ({ t with previous_value := some cur, init_flag := true },
     if was_init then some (.Added cur) else Option.none)
  | some prev, Option.none =>
    ({ t with previous_value := Option.none, init_flag := true },
     if was_init then some (.Removed prev) else Option.none)
  | some prev, some cur =>
    if prev ≠ cur then
      ({ t with previous_value := some cur, init_flag := true },
       if was_init then some (.Changed prev cur) else Option.none)
    else ({ t with init_flag := true }, Option.none)
  | Option.none, Option.none => ({ t with init_flag := true }, Option.none)

end EntityComponentTracker

/-! ## Event bus (hydrogen_core/src/events.rs)

Instants are modelled as Nat timestamps; elapsed time of an event at
observation time t is t - sent_at (truncated subtraction). A receiver
is a cursor (next unread index) into the shared buffer. -/

/-- One buffered event: value, send timestamp, monotonic index. -/
structure BusEvent (α : Type) where
  inner : α
  sent_at : Nat
  index : Nat
deriving DecidableEq, Repr

/-- The entry EventReceiver::peek finds: the first buffer entry whose
index equals the cursor. -/
def peekEntry {α : Type} (events : List (BusEvent α)) (r : Nat) : Option (BusEvent α) :=
  events.find? (fun ev => ev.index == r)

/-- EventReceiver::peek returns the value of the found entry. -/
def peek {α : Type} (events : List (BusEvent α)) (r : Nat) : Option α :=
  (peekEntry events r).map (fun ev => ev.inner)

/-- EventReceiver::recv: peek, and on success advance the cursor. -/
def recv {α : Type} (events : List (BusEvent α)) (r : Nat) : Option (α × Nat) :=
  (peekEntry events r).map (fun ev => (ev.inner, r + 1))

/-- The recv loop of EventReceiver::recv_all, with explicit fuel. Each
successful recv consumes a distinct index, so events.length + 1 units
of fuel always reach the terminating None (recvAll_exits below); the
fuelled function is then exactly the unbounded source loop. The
delivered entries are returned (the source returns their values). -/
def recvAllFuel {α : Type} (events : List (BusEvent α)) :
    Nat → Nat → List (BusEvent α) × Nat
  | 0, r => ([], r)
  | fuel + 1, r =>
    match peekEntry events r with
    | some ev =>
      (ev :: (recvAllFuel events fuel (r + 1)).1, (recvAllFuel events fuel (r + 1)).2)
    | Option.none => ([], r)

/-- EventReceiver::recv_all: drain until recv yields None; returns the
delivered entries and the final cursor. -/
def recv_all {α : Type} (events : List (BusEvent α)) (r : Nat) :
    List (BusEvent α) × Nat :=
  recvAllFuel events (events.length + 1) r

/-- EventSender state: retention duration, shared buffer, named
receivers (name to cursor), next send index. -/
structure EventSender (α : Type) where
  event_expiration_time : Nat
  events : List (BusEvent α)
  named_receivers : List (String × Nat)
  next_index : Nat
deriving DecidableEq, Repr

namespace EventSender

/-- Default::default() for EventSender: 30 second retention, empty
buffer. -/
def default (α : Type) : EventSender α := ⟨30, [], [], 0⟩

/-- The expiration loop of clean at observation time t: pop from the
front while the front entry is older than the retention duration. -/
def expireFront {α : Type} (t exp : Nat) (events : List (BusEvent α)) :
    List (BusEvent α) :=
  events.dropWhile (fun ev => decide (exp < t - ev.sent_at))

/-- EventSender::clean at observation time t: expire old entries from
the front, then retain only the named receivers that can still peek
something. -/
def clean {α : Type} (s : EventSender α) (t : Nat) : EventSender α :=
  let events' := expireFront t s.event_expiration_time s.events
  { s with
    events := events',
    named_receivers := s.named_receivers.filter
      (fun p => (peekEntry events' p.2).isSome) }

/-- EventSender::send at time t: append with the next index, then
clean. -/
def send {α : Type} (s : EventSender α) (t : Nat) (v : α) : EventSender α :=
  clean { s with
          events := s.events ++ [⟨v, t, s.next_index⟩],
          next_index := s.next_index + 1 } t

/-- EventSender::subscribe: a fresh receiver cursor starting at the
current write position. -/
def subscribe {α : Type} (s : EventSender α) : Nat := s.next_index

/-- EventSender::named_receiver: return the existing cursor under the
name, or subscribe and remember the new cursor. -/
def named_receiver {α : Type} (s : EventSender α) (name : String) :
    Nat × EventSender α :=
  match s.named_receivers.find? (fun p => p.1 == name) with
  | some p => (p.2, s)
  | Option.none =>
    (s.next_index, { s with named_receivers := s.named_receivers ++ [(name, s.next_index)] })

end EventSender

/-- A sender plus one anonymous receiver cursor sharing its buffer. -/
structure BusSys (α : Type) where
  sender : EventSender α
  cursor : Nat
deriving DecidableEq, Repr

/-- Interleavable operations on the bus: a send at some timestamp, or a
recv_all by the receiver. -/
inductive BusOp (α : Type) where
  | send : Nat → α → BusOp α
  | recvAll : BusOp α
deriving DecidableEq, Repr

/-- One step of the interleaving; recv_all steps return the entries
they delivered. -/
def busStep {α : Type} (s : BusSys α) : BusOp α → BusSys α × List (BusEvent α)
  | .send t v => (⟨s.sender.send t v, s.cursor⟩, [])
  | .recvAll =>
    (⟨s.sender, (recv_all s.sender.events s.cursor).2⟩,
     (recv_all s.sender.events s.cursor).1)

/-- Run an interleaving and concatenate everything delivered. -/
def busRun {α : Type} (s : BusSys α) : List (BusOp α) → BusSys α × List (BusEvent α)
  | [] => (s, [])
  | op :: ops =>
    ((busRun (busStep s op).1 ops).1,
     (busStep s op).2 ++ (busRun (busStep s op).1 ops).2)

/-! ## Operation sequences -/

/-- The mutating operations of the ComponentSet interface. The source
set operation asserts that the entry carries the component id of the set;
the invariant below does not depend on the payload, so it is proved for
arbitrary entries, which covers every non-panicking call. -/
inductive SetOp where
  | set : EntityId → Component → SetOp
  | del : EntityId → SetOp
deriving DecidableEq, Repr

/-- Apply one ComponentSet operation. -/
def ComponentSet.applyOp (s : ComponentSet) : SetOp → ComponentSet
  | .set e c => (s.set e c).2
  | .del e => (s.delete e).2

/-- Run a sequence of operations from a fresh set. -/
def ComponentSet.runOps (cid : ComponentId) (ops : List SetOp) : ComponentSet :=
  ops.foldl ComponentSet.applyOp (ComponentSet.new cid)

/-- The obvious functional model of a ComponentSet: the last value set
for each entity, erased by delete. -/
def naiveStep (m : EntityId → Option Component) : SetOp → EntityId → Option Component
  | .set e c => fun x => if x = e then some c else m x
  | .del e => fun x => if x = e then Option.none else m x

/-- Run the functional model over the same operations. -/
def naiveRun (ops : List SetOp) : EntityId → Option Component :=
  ops.foldl naiveStep (fun _ => Option.none)

/-- The mutating operations of the World interface. -/
inductive WorldOp where
  | newEntityId
  | entityIdFromServer : ServerEntityId → WorldOp
  | executeNetCommand : NetEcsCommand → WorldOp
  | executeClientNetCommand : ClientId → NetEcsCommand → WorldOp
  | setComponent : EntityId → Component → WorldOp
  | deleteComponent : EntityId → ComponentId → WorldOp
  | deleteEntity : EntityId → WorldOp
deriving DecidableEq, Repr

/-- Apply one World operation. -/
def World.applyOp (w : World) : WorldOp → World
  | .newEntityId => (w.new_entity_id).2
  | .entityIdFromServer sid => (w.entity_id_from_server sid).2
  | .executeNetCommand cmd => w.execute_net_command cmd
  | .executeClientNetCommand cl cmd => w.execute_client_net_command cl cmd
  | .setComponent e c => (w.set_component_boxed e c).2
  | .deleteComponent e cid => (w.delete_component e cid).2
  | .deleteEntity e => (w.delete_entity e).2

/-- Run a sequence of World operations. -/
def World.runOps (w : World) (ops : List WorldOp) : World :=
  ops.foldl World.applyOp w

/-! ## Well-formedness predicates

States reachable through the public interface satisfy these; they are
taken as hypotheses by the theorems that quantify over states. -/

/-- A component set is get-coherent when every entity it reports
present has a retrievable value (the sparse entry points at an occupied
dense slot). Every set reachable from ComponentSet::new satisfies this
(a consequence of the sparse/dense invariant proved below). -/
def ComponentSet.wf_get (s : ComponentSet) : Bool :=
  (List.range s.entity_component_indices.length).all
    (fun e => !(s.has_entity e) || (s.get e).isSome)

/-- A world is get-coherent when all its component sets are. -/
def World.wf_get (w : World) : Bool :=
  w.components.all (fun p => p.2.wf_get)

/-! ## General helper lemmas -/

theorem le_foldr_max {l : List Nat} {a : Nat} (h : a ∈ l) : a ≤ l.foldr max 0 := by
  induction l with
  | nil => cases h
  | cons b t ih =>
    rcases List.mem_cons.mp h with rfl | hmem
    · exact le_max_left _ _
    · exact le_trans (ih hmem) (le_max_right _ _)

theorem getD_set_self {α : Type} (l : List α) (i : Nat) (a d : α) (h : i < l.length) :
    (l.set i a).getD i d = a := by
  simp [List.getD_eq_getElem?_getD, List.getElem?_set_self h]

theorem getD_set_ne {α : Type} (l : List α) {i j : Nat} (a d : α) (h : i ≠ j) :
    (l.set i a).getD j d = l.getD j d := by
  simp [List.getD_eq_getElem?_getD, List.getElem?_set_ne h]

theorem getD_append_left {α : Type} (l m : List α) {j : Nat} (d : α) (h : j < l.length) :
    (l ++ m).getD j d = l.getD j d := by
  simp [List.getD_eq_getElem?_getD, List.getElem?_append_left h]

theorem getD_append_right {α : Type} (l m : List α) {j : Nat} (d : α) (h : l.length ≤ j) :
    (l ++ m).getD j d = m.getD (j - l.length) d := by
  simp [List.getD_eq_getElem?_getD, List.getElem?_append_right h]

theorem getD_oob {α : Type} (l : List α) {j : Nat} (d : α) (h : l.length ≤ j) :
    l.getD j d = d :=
  List.getD_eq_default l d h

theorem getD_lt_of_eq_some {α : Type} {l : List (Option α)} {j : Nat} {x : α}
    (h : l.getD j Option.none = some x) : j < l.length := by
  by_contra hge
  rw [getD_oob l Option.none (le_of_not_lt hge)] at h
  cases h

theorem getD_isSome_lt {α : Type} {l : List (Option α)} {j : Nat}
    (h : (l.getD j Option.none).isSome = true) : j < l.length := by
  rcases Option.isSome_iff_exists.mp h with ⟨x, hx⟩
  exact getD_lt_of_eq_some hx

theorem getD_pad {α : Type} (l : List (Option α)) (n j : Nat) :
    (l ++ List.replicate n (Option.none : Option α)).getD j Option.none
      = l.getD j Option.none := by
  rcases lt_or_ge j l.length with h | h
  · exact getD_append_left l _ _ h
  · rw [getD_append_right l _ _ h, getD_oob l _ h]
    rcases lt_or_ge (j - l.length) n with h2 | h2
    · simp [List.getD_eq_getElem?_getD, List.getElem?_replicate, h2]
    · exact getD_oob _ _ (by simpa using h2)

/-! ## Concrete scenario inputs -/

/-- The Replicate policy of the convergence scenario: no owner,
replicate to all clients, replicate all components, auto-replicate
changes of the Position component (component id 1). -/
def scReplicate : Replicate :=
  { server_entity_id := 0, owner := Option.none,
    replicate_to := Selection.all ClientId,
    client_writable := Selection.none ComponentId,
    replicated_components := Selection.all ComponentId,
    auto_replicate_changes := Selection.whitelist [1] }

/-- The Position example component, with component id 1. -/
def scPosition (x y : Int) : Component := ⟨1, .pos x y, true⟩

/-- Server world: entity 0 carries the Replicate policy and
Position{1, 2}. -/
def scWorld1 : World :=
  let w1 := (World.new.new_entity_id).2
  let w2 := (w1.set_component_boxed 0 (mkReplicate scReplicate)).2
  (w2.set_component_boxed 0 (scPosition 1 2)).2

/-- First diff pass of a replicator for client 7 against scWorld1. -/
def scStep1 : EcsReplicator × List NetEcsCommand :=
  (EcsReplicator.new 7).server_update scWorld1

/-- The world after the server sets Position{3, 2}. -/
def scWorld2 : World := (scWorld1.set_component_boxed 0 (scPosition 3 2)).2

/-- Second diff pass, after the mutation. -/
def scStep2 : EcsReplicator × List NetEcsCommand :=
  scStep1.1.server_update scWorld2

/-- Third diff pass, with no intervening mutation. -/
def scStep3 : EcsReplicator × List NetEcsCommand :=
  scStep2.1.server_update scWorld2

/-- A Replicate policy owned by client 7 whose client_writable
selection excludes everything (in particular Position). -/
def c1Replicate : Replicate :=
  { server_entity_id := 0, owner := some 7,
    replicate_to := Selection.all ClientId,
    client_writable := Selection.whitelist [],
    replicated_components := Selection.all ComponentId,
    auto_replicate_changes := Selection.all ComponentId }

/-- World for the write-permission scenario: entity 0 owned by client 7
with no client-writable components, carrying Position{1, 2}. -/
def c1World : World :=
  let w1 := (World.new.new_entity_id).2
  let w2 := (w1.set_component_boxed 0 (mkReplicate c1Replicate)).2
  (w2.set_component_boxed 0 (scPosition 1 2)).2

theorem mapGet_mem {α : Type} {k : Nat} {v : α} :
    ∀ {l : List (Nat × α)}, mapGet k l = some v → (k, v) ∈ l := by
  intro l
  induction l with
  | nil => intro h; cases h
  | cons p t ih =>
    obtain ⟨k2, v2⟩ := p
    intro h
    rw [mapGet] at h
    by_cases hk : k = k2
    · rw [if_pos hk] at h
      cases h
      subst hk
      exact List.mem_cons_self _ _
    · rw [if_neg hk] at h
      exact List.mem_cons_of_mem _ (ih h)

theorem mapGet_insert_self {α : Type} (k : Nat) (v : α) (l : List (Nat × α)) :
    mapGet k (mapInsert k v l) = some v := by
  induction l with
  | nil => simp [mapInsert, mapGet]
  | cons p t ih =>
    obtain ⟨k2, v2⟩ := p
    rw [mapInsert]
    by_cases h1 : k < k2
    · simp [h1, mapGet]
    · by_cases h2 : k = k2
      · simp [h1, h2, mapGet]
      · simp only [if_neg h1, if_neg h2]
        rw [mapGet, if_neg h2]
        exact ih

theorem mapGet_insert_ne {α : Type} {k k2 : Nat} (v : α) (l : List (Nat × α))
    (h : k ≠ k2) : mapGet k2 (mapInsert k v l) = mapGet k2 l := by
  induction l with
  | nil =>
    simp [mapInsert, mapGet, Ne.symm h]
  | cons p t ih =>
    obtain ⟨k3, v3⟩ := p
    rw [mapInsert]
    by_cases h1 : k < k3
    · simp only [if_pos h1]
      rw [mapGet, if_neg (fun hh => h hh.symm), mapGet]
    · by_cases h2 : k = k3
      · simp only [if_neg h1, if_pos h2]
        subst h2
        rw [mapGet, if_neg (fun hh => h hh.symm), mapGet, if_neg (fun hh => h hh.symm)]
      · simp only [if_neg h1, if_neg h2]
        rw [mapGet, mapGet]
        by_cases h3 : k2 = k3
        · rw [if_pos h3, if_pos h3]
        · rw [if_neg h3, if_neg h3]
          exact ih

/-! ## C2: replication convergence scenario -/

/-- C2: with entity 0 carrying Replicate{owner: None, replicate_to:
all, replicated_components: all} and Position{1, 2}, one server_update
puts Position{1, 2} into the replicator snapshot for the entity and
sends a SetComponent for it; after the server sets Position{3, 2}
(whose component id is in auto_replicate_changes), the next
server_update sends exactly one command, the SetComponent carrying
Position{3, 2}; a further server_update with no intervening mutation
sends no SetComponent for Position. -/
theorem c2_replication_convergence :
    ((mapGet 0 scStep1.1.current_entities).bind (fun m => mapGet 1 m)
        = some (scPosition 1 2))
    ∧ (NetEcsCommand.SetComponent 0 (scPosition 1 2)) ∈ scStep1.2
    ∧ scReplicate.auto_replicate_changes.contains (scPosition 3 2).component_id = true
    ∧ scStep2.2 = [NetEcsCommand.SetComponent 0 (scPosition 3 2)]
    ∧ scStep3.2.countP (fun cmd =>
        match cmd with
        | NetEcsCommand.SetComponent _ c => c.component_id == 1
        | _ => false) = 0 := by
  decide

/-! ## C7: EcsReplicator::replicate -/

/-- C7: the downcast inside EcsReplicator::replicate compares the
dynamic type id of the boxed trait object (Box of dyn Component, the
Self type at which the blanket AsAny implementation resolves) against
the type id of Box of dyn SerializableComponent; the two can never be
equal, so replicate always returns false, sends nothing and leaves the
snapshot untouched — even when, as in the second conjunct, the world
does store a serializable component under the requested entity and
component id, where the specification requires a send and a true
return. -/
theorem c7_replicate_never_succeeds :
    (∀ (rep : EcsReplicator) (w : World) (e : EntityId) (cid : ComponentId),
      EcsReplicator.replicate rep w e cid = (false, rep, []))
    ∧ (scWorld1.get_component 0 1).map Component.serializable = some true
    ∧ EcsReplicator.replicate (EcsReplicator.new 7) scWorld1 0 1
        = (false, EcsReplicator.new 7, []) := by
  refine ⟨?_, by decide, by decide⟩
  intro rep w e cid
  cases hg : w.get_component e cid with
  | none => simp [EcsReplicator.replicate, hg]
  | some c =>
    simp [EcsReplicator.replicate, hg, EcsReplicator.downcastBoxSerializable,
      EcsReplicator.replicateAsAnyTypeId]

/-! ## C4: change-tracker update -/

/-- The event computation exactly as the specification words the four
cases over (remembered previous value, current value); compared against
the implementation in C4. -/
def trackerEventSpec : Option Component → Option Component → Option ComponentTrackerEvent
  | Option.none, some cur => some (.Added cur)
  | some prev, Option.none => some (.Removed prev)
  | some prev, some cur =>
    if prev ≠ cur then some (.Changed prev cur) else Option.none
  | Option.none, Option.none => Option.none

/-- C4: update computes its event from (remembered previous value,
current value) exactly by the four specified cases (suppressed on the
first-ever update), stores the current value as the new remembered
value, and a second update after the value changed emits exactly one
Changed event while the first-ever update emits nothing. -/
theorem c4_tracker_update :
    (∀ (t : EntityComponentTracker) (w : World),
      ((t.update w).2 =
        if t.init_flag then
          trackerEventSpec t.previous_value
            ((w.get_component t.entity_id t.component_id).bind Component.as_serializable)
        else Option.none)
      ∧ (t.update w).1.previous_value
          = (w.get_component t.entity_id t.component_id).bind Component.as_serializable
      ∧ (t.update w).1.init_flag = true)
    ∧ (∀ (t : EntityComponentTracker) (w1 w2 : World) (v v2 : Component),
        t.init_flag = false →
        t.previous_value = Option.none →
        (w1.get_component t.entity_id t.component_id).bind Component.as_serializable
          = some v →
        (w2.get_component t.entity_id t.component_id).bind Component.as_serializable
          = some v2 →
        v ≠ v2 →
        (t.update w1).2 = Option.none
          ∧ ((t.update w1).1.update w2).2 = some (.Changed v v2)) := by
  constructor
  · intro t w
    cases hp : t.previous_value with
    | none =>
      cases hc : (w.get_component t.entity_id t.component_id).bind Component.as_serializable with
      | none => simp [EntityComponentTracker.update, trackerEventSpec, hp, hc]
      | some cur => simp [EntityComponentTracker.update, trackerEventSpec, hp, hc]
    | some prev =>
      cases hc : (w.get_component t.entity_id t.component_id).bind Component.as_serializable with
      | none => simp [EntityComponentTracker.update, trackerEventSpec, hp, hc]
      | some cur =>
        by_cases heq : prev = cur
        · subst heq
          simp [EntityComponentTracker.update, trackerEventSpec, hp, hc]
        · simp [EntityComponentTracker.update, trackerEventSpec, hp, hc, heq]
  · intro t w1 w2 v v2 hinit hprev hc1 hc2 hne
    have h1 : t.update w1 =
        ({ t with previous_value := some v, init_flag := true }, Option.none) := by
      simp [EntityComponentTracker.update, hprev, hc1, hinit]
    refine ⟨by rw [h1], ?_⟩
    rw [h1]
    simp [EntityComponentTracker.update, hc2, hne]

/-- Witness for C4: a fresh cursor observing Position{1, 2} first and
Position{3, 2} second emits nothing and then exactly one Changed
event. -/
theorem c4_tracker_update_witness :
    ((EntityComponentTracker.new 0 1).init_flag = false
      ∧ (EntityComponentTracker.new 0 1).previous_value = Option.none
      ∧ (scWorld1.get_component 0 1).bind Component.as_serializable
          = some (scPosition 1 2)
      ∧ (scWorld2.get_component 0 1).bind Component.as_serializable
          = some (scPosition 3 2)
      ∧ scPosition 1 2 ≠ scPosition 3 2)
    ∧ (((EntityComponentTracker.new 0 1).update scWorld1).2 = Option.none
      ∧ (((EntityComponentTracker.new 0 1).update scWorld1).1.update scWorld2).2
          = some (.Changed (scPosition 1 2) (scPosition 3 2))) :=
  ⟨by decide,
   c4_tracker_update.2 (EntityComponentTracker.new 0 1) scWorld1 scWorld2
     (scPosition 1 2) (scPosition 3 2) (by decide) (by decide) (by decide)
     (by decide) (by decide)⟩

/-! ## C3: query semantics and the scan bound -/

theorem ComponentSet.wf_get_spec {s : ComponentSet} {e : EntityId}
    (hwf : s.wf_get = true) (he : s.has_entity e = true) :
    (s.get e).isSome = true := by
  have hlt : e < s.entity_component_indices.length :=
    getD_isSome_lt (by simpa [ComponentSet.has_entity, ComponentSet.idxAt] using he)
  have := (List.all_eq_true.mp hwf) e (List.mem_range.mpr hlt)
  simpa [he] using this

theorem ComponentSet.has_entity_of_get_isSome {s : ComponentSet} {e : EntityId}
    (h : (s.get e).isSome = true) : s.has_entity e = true := by
  rw [ComponentSet.get] at h
  rcases Option.isSome_iff_exists.mp h with ⟨c, hc⟩
  rcases Option.bind_eq_some.mp hc with ⟨i, hi, _⟩
  simp [ComponentSet.has_entity, hi]

theorem ComponentSet.has_entity_length {s : ComponentSet} {e : EntityId}
    (he : s.has_entity e = true) : e < s.entity_component_indices.length :=
  getD_isSome_lt (by simpa [ComponentSet.has_entity, ComponentSet.idxAt] using he)

theorem World.get_isSome_iff_has_component {w : World} (hwf : w.wf_get = true)
    (e : EntityId) (cid : ComponentId) :
    (w.get_component e cid).isSome = true ↔ w.has_component e cid = true := by
  constructor
  · intro h
    rw [World.get_component] at h
    rcases Option.isSome_iff_exists.mp h with ⟨c, hc⟩
    rcases Option.bind_eq_some.mp hc with ⟨s, hs, hget⟩
    rw [World.has_component, hs]
    exact ComponentSet.has_entity_of_get_isSome (by simp [hget])
  · intro h
    rw [World.has_component] at h
    rw [World.get_component]
    cases hs : mapGet cid w.components with
    | none => rw [hs] at h; cases h
    | some s =>
      rw [hs] at h
      have hmem := mapGet_mem hs
      have hswf : s.wf_get = true := (List.all_eq_true.mp hwf) (cid, s) hmem
      have := ComponentSet.wf_get_spec hswf h
      simpa using this

theorem World.has_entity_iff {w : World} (e : EntityId) :
    w.has_entity e = true ↔ ∃ p ∈ w.components, p.2.has_entity e = true := by
  simp [World.has_entity, List.any_eq_true]

theorem gather_isSome_iff (w : World) (e : EntityId) (wi : List ComponentId) :
    (w.gather e wi).isSome = true ↔ ∀ cid ∈ wi, (w.get_component e cid).isSome = true := by
  induction wi with
  | nil => simp [World.gather]
  | cons c rest ih =>
    rw [World.gather]
    constructor
    · intro h
      rcases Option.isSome_iff_exists.mp h with ⟨cs, hcs⟩
      rcases Option.bind_eq_some.mp hcs with ⟨c1, hc1, hmap⟩
      rcases Option.map_eq_some'.mp hmap with ⟨cs0, hcs0, _⟩
      intro cid hcid
      rcases List.mem_cons.mp hcid with rfl | hmem
      · simp [hc1]
      · exact (ih.mp (by simp [hcs0])) cid hmem
    · intro h
      have h1 : (w.get_component e c).isSome = true := h c (List.mem_cons_self _ _)
      rcases Option.isSome_iff_exists.mp h1 with ⟨c1, hc1⟩
      have h2 := ih.mpr (fun cid hcid => h cid (List.mem_cons_of_mem _ hcid))
      rcases Option.isSome_iff_exists.mp h2 with ⟨cs0, hcs0⟩
      simp [hc1, hcs0]

theorem mem_query_iff (w : World) (wi wo : List ComponentId) (e : EntityId) :
    e ∈ (w.query wi wo).map Prod.fst ↔
      e < w.required_iter_upper_bound wi ∧ (w.query_one e wi wo).isSome = true := by
  constructor
  · intro h
    rcases List.mem_map.mp h with ⟨⟨e0, cs⟩, hmem, hfst⟩
    rcases List.mem_filterMap.mp hmem with ⟨x, hxr, hx⟩
    rcases Option.map_eq_some'.mp hx with ⟨cs0, hcs0, heq⟩
    cases heq
    cases hfst
    exact ⟨List.mem_range.mp hxr, by simp [hcs0]⟩
  · rintro ⟨hlt, hsome⟩
    rcases Option.isSome_iff_exists.mp hsome with ⟨cs, hcs⟩
    exact List.mem_map.mpr ⟨(e, cs),
      List.mem_filterMap.mpr ⟨e, List.mem_range.mpr hlt, by simp [hcs]⟩, rfl⟩

theorem query_one_isSome_iff {w : World} (hwf : w.wf_get = true)
    (e : EntityId) (wi wo : List ComponentId) :
    (w.query_one e wi wo).isSome = true ↔
      ((∀ cid ∈ wi, w.has_component e cid = true)
        ∧ (∀ cid ∈ wo, w.has_component e cid = false)
        ∧ (wi = [] → w.has_entity e = true)) := by
  have hwo : (¬ (wo.any (fun cid => w.has_component e cid)) = true) ↔
      ∀ cid ∈ wo, w.has_component e cid = false := by
    simp [List.any_eq_true]
  cases wi with
  | nil =>
    rw [World.query_one]
    by_cases he : w.has_entity e = true
    · rw [if_neg (by simp [he])]
      by_cases ha : wo.any (fun cid => w.has_component e cid) = true
      · rw [if_pos ha]
        constructor
        · intro h; cases h
        · rintro ⟨-, h2, -⟩
          rcases List.any_eq_true.mp ha with ⟨cid, hcid, hc⟩
          rw [h2 cid hcid] at hc
          cases hc
      · rw [if_neg ha]
        simp only [World.gather]
        constructor
        · intro _
          exact ⟨fun cid h => absurd h (List.not_mem_nil cid), hwo.mp ha, fun _ => he⟩
        · intro _; rfl
    · rw [if_pos (by simp [he])]
      constructor
      · intro h; cases h
      · rintro ⟨-, -, h3⟩
        exact absurd (h3 rfl) he
  | cons c rest =>
    rw [World.query_one, if_neg (by simp)]
    by_cases ha : wo.any (fun cid => w.has_component e cid) = true
    · rw [if_pos ha]
      constructor
      · intro h; cases h
      · rintro ⟨-, h2, -⟩
        rcases List.any_eq_true.mp ha with ⟨cid, hcid, hc⟩
        rw [h2 cid hcid] at hc
        cases hc
    · rw [if_neg ha]
      rw [gather_isSome_iff]
      constructor
      · intro h
        exact ⟨fun cid hcid => (World.get_isSome_iff_has_component hwf e cid).mp (h cid hcid),
          hwo.mp ha, by intro h0; cases h0⟩
      · rintro ⟨h1, -, -⟩
        exact fun cid hcid => (World.get_isSome_iff_has_component hwf e cid).mpr (h1 cid hcid)

theorem qualifies_lt_bound {w : World} {e : EntityId} {wi : List ComponentId}
    (h1 : ∀ cid ∈ wi, w.has_component e cid = true)
    (h3 : wi = [] → w.has_entity e = true) :
    e < w.required_iter_upper_bound wi := by
  cases wi with
  | nil =>
    rcases (World.has_entity_iff e).mp (h3 rfl) with ⟨p, hp, hpe⟩
    have hlt := ComponentSet.has_entity_length hpe
    have hle : p.2.entity_component_indices.length ≤
        w.required_iter_upper_bound [] := by
      rw [World.required_iter_upper_bound, if_pos (by simp)]
      exact le_foldr_max (List.mem_map.mpr ⟨p, hp, rfl⟩)
    exact lt_of_lt_of_le hlt hle
  | cons c rest =>
    have hc := h1 c (List.mem_cons_self _ _)
    rw [World.has_component] at hc
    cases hs : mapGet c w.components with
    | none => rw [hs] at hc; cases hc
    | some s =>
      rw [hs] at hc
      have hlt := ComponentSet.has_entity_length hc
      have hle : s.entity_component_indices.length ≤
          w.required_iter_upper_bound (c :: rest) := by
        rw [World.required_iter_upper_bound, if_neg (by simp)]
        exact le_foldr_max (List.mem_filterMap.mpr
          ⟨c, List.mem_cons_self _ _, by rw [hs]; rfl⟩)
      exact lt_of_lt_of_le hlt hle

/-- The world witnessing necessity of the scan bound: a single
component (id 2) stored for entity 5 only. -/
def c3World : World :=
  (World.new.set_component_boxed 5 ⟨2, .raw 9, true⟩).2

/-- C3: for a get-coherent world (true of every world reachable through
the interface), query(with, without) yields exactly the entity ids
holding every component in `with` and none in `without` (and, when
`with` is empty, existing at all) — in particular scanning up to
required_iter_upper_bound loses no qualifying entity; and in c3World a
qualifying entity sits exactly at the bound (index bound - 1), so no
smaller scan bound suffices. -/
theorem c3_query_semantics_and_bound :
    (∀ (w : World), w.wf_get = true → ∀ (wi wo : List ComponentId) (e : EntityId),
      (e ∈ (w.query wi wo).map Prod.fst ↔
        ((∀ cid ∈ wi, w.has_component e cid = true)
          ∧ (∀ cid ∈ wo, w.has_component e cid = false)
          ∧ (wi = [] → w.has_entity e = true))))
    ∧ c3World.required_iter_upper_bound [2] = 6
    ∧ 5 ∈ (c3World.query [2] []).map Prod.fst := by
  refine ⟨?_, by decide, by decide⟩
  intro w hwf wi wo e
  rw [mem_query_iff]
  constructor
  · rintro ⟨-, hsome⟩
    exact (query_one_isSome_iff hwf e wi wo).mp hsome
  · intro h
    exact ⟨qualifies_lt_bound h.1 h.2.2, (query_one_isSome_iff hwf e wi wo).mpr h⟩

/-- Witness for C3: the characterization applied to the concrete world,
with get-coherence discharged by computation. -/
theorem c3_query_semantics_and_bound_witness :
    c3World.wf_get = true
    ∧ (5 ∈ (c3World.query [2] []).map Prod.fst ↔
        ((∀ cid ∈ [2], c3World.has_component 5 cid = true)
          ∧ (∀ cid ∈ ([] : List ComponentId), c3World.has_component 5 cid = false)
          ∧ (([2] : List ComponentId) = [] → c3World.has_entity 5 = true))) :=
  ⟨by decide, c3_query_semantics_and_bound.1 c3World (by decide) [2] [] 5⟩

/-! ## C9 and C10: entity-id lifecycle -/

theorem mapGet_of_mem_nodup {α : Type} {l : List (Nat × α)} {k : Nat} {v : α}
    (hnd : (l.map Prod.fst).Nodup) (hmem : (k, v) ∈ l) : mapGet k l = some v := by
  induction l with
  | nil => cases hmem
  | cons p t ih =>
    obtain ⟨k2, v2⟩ := p
    rw [List.map_cons] at hnd
    rcases List.mem_cons.mp hmem with heq | hmem2
    · cases heq
      rw [mapGet, if_pos rfl]
    · rw [mapGet]
      have hk : k ≠ k2 := by
        intro h
        subst h
        exact (List.nodup_cons.mp hnd).1 (List.mem_map.mpr ⟨(k, v), hmem2, rfl⟩)
      rw [if_neg hk]
      exact ih (List.nodup_cons.mp hnd).2 hmem2

theorem ComponentSet.delete_has_entity_false (s : ComponentSet) (e : EntityId) :
    (s.delete e).2.has_entity e = false := by
  rw [ComponentSet.delete]
  cases hi : s.idxAt e with
  | none =>
    rw [ComponentSet.has_entity, hi]
    rfl
  | some ci =>
    have hlt :=
      getD_lt_of_eq_some (hi : s.entity_component_indices.getD e Option.none = some ci)
    simp only [ComponentSet.has_entity, ComponentSet.idxAt]
    rw [getD_set_self _ _ _ _ hlt]
    rfl

theorem ComponentSet.delete_noop {s : ComponentSet} {e : EntityId}
    (h : s.has_entity e = false) : (s.delete e).2 = s := by
  rw [ComponentSet.delete]
  cases hi : s.idxAt e with
  | none => rfl
  | some ci => rw [ComponentSet.has_entity, hi] at h; cases h

theorem World.set_component_boxed_next (w : World) (e : EntityId) (c : Component) :
    (w.set_component_boxed e c).2.next_entity_id = w.next_entity_id := by
  rw [World.set_component_boxed]
  cases mapGet c.component_id w.components <;> rfl

theorem World.set_component_boxed_server_map (w : World) (e : EntityId) (c : Component) :
    (w.set_component_boxed e c).2.server_entity_id_map = w.server_entity_id_map := by
  rw [World.set_component_boxed]
  cases mapGet c.component_id w.components <;> rfl

theorem World.delete_component_next (w : World) (e : EntityId) (cid : ComponentId) :
    (w.delete_component e cid).2.next_entity_id = w.next_entity_id := by
  rw [World.delete_component]
  cases mapGet cid w.components <;> rfl

theorem World.delete_component_server_map (w : World) (e : EntityId) (cid : ComponentId) :
    (w.delete_component e cid).2.server_entity_id_map = w.server_entity_id_map := by
  rw [World.delete_component]
  cases mapGet cid w.components <;> rfl

theorem World.execute_client_net_command_next (w : World) (cl : ClientId)
    (cmd : NetEcsCommand) :
    (w.execute_client_net_command cl cmd).next_entity_id = w.next_entity_id := by
  cases cmd with
  | SetComponent sid c =>
    rw [World.execute_client_net_command]
    by_cases h1 : c.component_id = Replicate.COMPONENT_ID
    · rw [if_pos h1]
    · rw [if_neg h1]
      cases hq : w.query_one_replicate sid with
      | none => rfl
      | some r =>
        simp only []
        split
        · rfl
        · split
          · rfl
          · exact World.set_component_boxed_next w sid c
  | DeleteComponent sid cid => rfl
  | DeleteEntity sid => rfl

theorem World.entity_id_from_server_next_le (w : World) (sid : ServerEntityId) :
    w.next_entity_id ≤ (w.entity_id_from_server sid).2.next_entity_id := by
  rw [World.entity_id_from_server]
  cases mapGet sid w.server_entity_id_map with
  | none => simp [World.new_entity_id]
  | some e => simp

theorem World.applyOp_next_le (w : World) (op : WorldOp) :
    w.next_entity_id ≤ (w.applyOp op).next_entity_id := by
  cases op with
  | newEntityId => simp [World.applyOp, World.new_entity_id]
  | entityIdFromServer sid => exact World.entity_id_from_server_next_le w sid
  | executeNetCommand cmd =>
    rw [World.applyOp, World.execute_net_command]
    have h1 := World.entity_id_from_server_next_le w cmd.server_entity_id
    cases cmd with
    | SetComponent sid c =>
      rw [World.set_component_boxed_next]
      exact h1
    | DeleteComponent sid cid =>
      rw [World.delete_component_next]
      exact h1
    | DeleteEntity sid => exact h1
  | executeClientNetCommand cl cmd =>
    rw [World.applyOp, World.execute_client_net_command_next]
  | setComponent e c =>
    rw [World.applyOp, World.set_component_boxed_next]
  | deleteComponent e cid =>
    rw [World.applyOp, World.delete_component_next]
  | deleteEntity e => exact le_refl _

theorem World.runOps_next_le (w : World) (ops : List WorldOp) :
    w.next_entity_id ≤ (w.runOps ops).next_entity_id := by
  induction ops generalizing w with
  | nil => exact le_refl _
  | cons op rest ih =>
    exact le_trans (World.applyOp_next_le w op) (ih (w.applyOp op))

/-- A world holding exactly one component (id 5) for entity 3. -/
def c9World : World :=
  ⟨[(5, ⟨5, [some ⟨5, .raw 0, true⟩],
      [Option.none, Option.none, Option.none, some 0], []⟩)], [], 0⟩

/-- C9: deleting the only remaining component of an entity makes
has_entity false (stated for worlds with duplicate-free component-map
keys, as every BTreeMap is); and the id returned by new_entity_id is
never returned again by any later new_entity_id, whatever world
operations run in between. -/
theorem c9_delete_last_and_no_reuse :
    (∀ (w : World) (e : EntityId) (cid : ComponentId),
      (w.components.map Prod.fst).Nodup →
      w.has_component e cid = true →
      (∀ cid2, cid2 ≠ cid → w.has_component e cid2 = false) →
      (w.delete_component e cid).2.has_entity e = false)
    ∧ (∀ (w : World) (ops : List WorldOp),
        (((w.new_entity_id).2.runOps ops).new_entity_id).1 ≠ (w.new_entity_id).1) := by
  constructor
  · intro w e cid hnd hc hother
    have hs : ∃ s, mapGet cid w.components = some s := by
      rw [World.has_component] at hc
      cases hg : mapGet cid w.components with
      | none => rw [hg] at hc; cases hc
      | some s => exact ⟨s, rfl⟩
    rcases hs with ⟨s, hg⟩
    rw [World.delete_component, hg]
    simp only [World.has_entity, mapModify]
    rw [List.any_eq_false]
    intro p hp
    rcases List.mem_map.mp hp with ⟨q, hq, rfl⟩
    by_cases hkey : q.1 = cid
    · simp only [if_pos hkey]
      have h1 : (q.2.delete e).2.has_entity e = false :=
        ComponentSet.delete_has_entity_false q.2 e
      simp [h1]
    · simp only [if_neg hkey]
      have hq2 : mapGet q.1 w.components = some q.2 :=
        mapGet_of_mem_nodup hnd (by obtain ⟨k, v⟩ := q; exact hq)
      have h0 := hother q.1 hkey
      rw [World.has_component, hq2] at h0
      have h2 : q.2.has_entity e = false := h0
      simp [h2]
  · intro w ops
    have h1 : (w.new_entity_id).2.next_entity_id = w.next_entity_id + 1 := rfl
    have h2 := World.runOps_next_le (w.new_entity_id).2 ops
    rw [h1] at h2
    have hlt : w.next_entity_id < ((w.new_entity_id).2.runOps ops).next_entity_id :=
      lt_of_lt_of_le (Nat.lt_succ_self _) h2
    have hne : ((w.new_entity_id).2.runOps ops).next_entity_id ≠ w.next_entity_id :=
      Nat.ne_of_gt hlt
    exact hne

/-- Witness for C9: deleting the only component of entity 3 in the
concrete world makes the entity cease to exist. -/
theorem c9_delete_last_and_no_reuse_witness :
    ((c9World.components.map Prod.fst).Nodup
      ∧ c9World.has_component 3 5 = true
      ∧ (∀ cid2, cid2 ≠ 5 → c9World.has_component 3 cid2 = false))
    ∧ (c9World.delete_component 3 5).2.has_entity 3 = false :=
  ⟨⟨by decide, by decide,
    fun cid2 hne => by simp [c9World, World.has_component, mapGet, hne]⟩,
   c9_delete_last_and_no_reuse.1 c9World 3 5 (by decide) (by decide)
     (fun cid2 hne => by simp [c9World, World.has_component, mapGet, hne])⟩

/-- The world of the C10 counterexample: a component stored for entity
0 while the next-entity-id counter is still 0. -/
def c10World : World := (World.new.set_component_boxed 0 (scPosition 1 2)).2

/-- Counterexample to C10 as stated: executing DeleteEntity for the
unseen server id 7 allocates local id 0 — which, in this world, does
hold a component — and deletes its components, so the component sets do
change. -/
theorem c10_counterexample :
    mapGet 7 c10World.server_entity_id_map = Option.none
    ∧ c10World.has_entity c10World.next_entity_id = true
    ∧ (c10World.execute_net_command (.DeleteEntity 7)).components
        ≠ c10World.components := by
  decide

/-- C10 (amended): executing any net command for an unseen server
entity id allocates a fresh local id (the counter is incremented and a
map entry inserted); and for the DeleteEntity and DeleteComponent
commands, provided the freshly allocated local id holds no components
(true in particular whenever every populated entity id was allocated by
new_entity_id), every component set is left unchanged. -/
theorem c10_unseen_server_id :
    (∀ (w : World) (cmd : NetEcsCommand),
      mapGet cmd.server_entity_id w.server_entity_id_map = Option.none →
      (w.execute_net_command cmd).next_entity_id = w.next_entity_id + 1
        ∧ mapGet cmd.server_entity_id (w.execute_net_command cmd).server_entity_id_map
            = some w.next_entity_id)
    ∧ (∀ (w : World) (sid : ServerEntityId) (cid : ComponentId),
        mapGet sid w.server_entity_id_map = Option.none →
        w.has_entity w.next_entity_id = false →
        (w.execute_net_command (.DeleteEntity sid)).components = w.components
          ∧ (w.execute_net_command (.DeleteComponent sid cid)).components
              = w.components) := by
  have halloc : ∀ (w : World) (sid : ServerEntityId),
      mapGet sid w.server_entity_id_map = Option.none →
      w.entity_id_from_server sid =
        (w.next_entity_id,
         { w with next_entity_id := w.next_entity_id + 1,
                  server_entity_id_map := mapInsert sid w.next_entity_id w.server_entity_id_map }) := by
    intro w sid h
    rw [World.entity_id_from_server, h]
    rfl
  have hdel : ∀ (w : World) (e : EntityId), w.has_entity e = false →
      (w.delete_entity e).2.components = w.components := by
    intro w e h
    rw [World.delete_entity]
    simp only []
    rw [List.map_congr_left, List.map_id]
    intro p hp
    have hpe : p.2.has_entity e = false := by
      rw [World.has_entity, List.any_eq_false] at h
      simpa using h p hp
    rw [ComponentSet.delete_noop hpe]
    rfl
  have hdelc : ∀ (w : World) (e : EntityId) (cid : ComponentId),
      w.has_entity e = false →
      (w.delete_component e cid).2.components = w.components := by
    intro w e cid h
    rw [World.delete_component]
    cases hg : mapGet cid w.components with
    | none => rfl
    | some s =>
      simp only [mapModify]
      rw [List.map_congr_left, List.map_id]
      intro p hp
      by_cases hkey : p.1 = cid
      · rw [if_pos hkey]
        have hpe : p.2.has_entity e = false := by
          rw [World.has_entity, List.any_eq_false] at h
          simpa using h p hp
        rw [ComponentSet.delete_noop hpe]
        rfl
      · rw [if_neg hkey]
        rfl
  constructor
  · intro w cmd h
    rw [World.execute_net_command, halloc w cmd.server_entity_id h]
    cases cmd with
    | SetComponent sid c =>
      rw [World.set_component_boxed_next, World.set_component_boxed_server_map]
      exact ⟨rfl, mapGet_insert_self _ _ _⟩
    | DeleteComponent sid cid =>
      rw [World.delete_component_next, World.delete_component_server_map]
      exact ⟨rfl, mapGet_insert_self _ _ _⟩
    | DeleteEntity sid =>
      exact ⟨rfl, mapGet_insert_self _ _ _⟩
  · intro w sid cid h hfree
    constructor
    · rw [World.execute_net_command]
      have hsid : NetEcsCommand.server_entity_id (.DeleteEntity sid) = sid := rfl
      rw [hsid, halloc w sid h]
      exact hdel _ w.next_entity_id hfree
    · rw [World.execute_net_command]
      have hsid : NetEcsCommand.server_entity_id (.DeleteComponent sid cid) = sid := rfl
      rw [hsid, halloc w sid h]
      exact hdelc _ w.next_entity_id cid hfree

/-- Witness for C10 (amended): in a world whose only entity was
allocated by new_entity_id, a DeleteEntity for an unseen server id
allocates local id 1 and leaves every component set unchanged. -/
theorem c10_unseen_server_id_witness :
    (mapGet 9 scWorld1.server_entity_id_map = Option.none
      ∧ scWorld1.has_entity scWorld1.next_entity_id = false)
    ∧ ((scWorld1.execute_net_command (.DeleteEntity 9)).components = scWorld1.components
      ∧ (scWorld1.execute_net_command (.DeleteComponent 9 1)).components
          = scWorld1.components) :=
  ⟨⟨by decide, by decide⟩,
   c10_unseen_server_id.2 scWorld1 9 1 (by decide) (by decide)⟩

/-! ## C1: server-side validation of client SetComponent -/

/-- C1: a client-originated SetComponent is applied (the world performs
set_component_boxed on the target entity) exactly when the target
entity has a Replicate component owned by the sending client whose
client_writable selection contains the component id, and the written
component is not the Replicate component itself; when any check fails
the world is returned completely unchanged (the handler has no channel
to reply on, so no reply is ever produced). -/
theorem c1_client_set_component_validation :
    (∀ (w : World) (client : ClientId) (sid : ServerEntityId) (c : Component)
        (r : Replicate),
      c.component_id ≠ Replicate.COMPONENT_ID →
      w.query_one_replicate sid = some r →
      r.owner = some client →
      r.client_writable.contains c.component_id = true →
      w.execute_client_net_command client (.SetComponent sid c)
        = (w.set_component_boxed sid c).2)
    ∧ (∀ (w : World) (client : ClientId) (sid : ServerEntityId) (c : Component),
        (c.component_id = Replicate.COMPONENT_ID
          ∨ w.query_one_replicate sid = Option.none
          ∨ (∃ r, w.query_one_replicate sid = some r
              ∧ (r.owner ≠ some client
                ∨ r.client_writable.contains c.component_id = false))) →
        w.execute_client_net_command client (.SetComponent sid c) = w) := by
  constructor
  · intro w client sid c r hcid hq ho hcw
    simp [World.execute_client_net_command, hcid, hq, ho, hcw]
  · intro w client sid c hfail
    rcases hfail with hcid | hq | ⟨r, hq, hbad⟩
    · simp [World.execute_client_net_command, hcid]
    · by_cases hcid : c.component_id = Replicate.COMPONENT_ID
      · simp [World.execute_client_net_command, hcid]
      · simp [World.execute_client_net_command, hcid, hq]
    · by_cases hcid : c.component_id = Replicate.COMPONENT_ID
      · simp [World.execute_client_net_command, hcid]
      · rcases hbad with ho | hcw
        · simp [World.execute_client_net_command, hcid, hq, ho]
        · by_cases ho : r.owner = some client
          · simp [World.execute_client_net_command, hcid, hq, ho, hcw]
          · simp [World.execute_client_net_command, hcid, hq, ho]

/-- Witness for C1: the write-permission scenario. Client 7 owns entity
0 but client_writable excludes Position, so a client-originated
SetComponent(0, Position{9, 9}) is rejected and the world (in
particular the authoritative Position{1, 2}) is unchanged. -/
theorem c1_client_set_component_validation_witness :
    ((scPosition 9 9).component_id = Replicate.COMPONENT_ID
      ∨ c1World.query_one_replicate 0 = Option.none
      ∨ (∃ r, c1World.query_one_replicate 0 = some r
          ∧ (r.owner ≠ some 7
            ∨ r.client_writable.contains (scPosition 9 9).component_id = false)))
    ∧ c1World.execute_client_net_command 7 (.SetComponent 0 (scPosition 9 9))
        = c1World :=
  ⟨Or.inr (Or.inr ⟨c1Replicate, by decide, Or.inr (by decide)⟩),
   c1_client_set_component_validation.2 c1World 7 0 (scPosition 9 9)
     (Or.inr (Or.inr ⟨c1Replicate, by decide, Or.inr (by decide)⟩))⟩

/-! ## Event-bus lemmas (for C5 and C8) -/

theorem peekEntry_eq_some_index {α : Type} {events : List (BusEvent α)} {r : Nat}
    {ev : BusEvent α} (h : peekEntry events r = some ev) :
    ev.index = r ∧ ev ∈ events := by
  refine ⟨?_, List.mem_of_find?_eq_some h⟩
  have := List.find?_some h
  simpa using this

theorem peekEntry_isSome_iff {α : Type} (events : List (BusEvent α)) (r : Nat) :
    (peekEntry events r).isSome = true ↔ r ∈ events.map (fun ev => ev.index) := by
  rw [peekEntry, List.find?_isSome]
  constructor
  · rintro ⟨ev, hmem, heq⟩
    exact List.mem_map.mpr ⟨ev, hmem, by simpa using heq⟩
  · intro hmem
    rcases List.mem_map.mp hmem with ⟨ev, hmem2, heq⟩
    exact ⟨ev, hmem2, by simp [heq]⟩

theorem range'_cons_inv {α : Type} {ev : BusEvent α} {tl : List (BusEvent α)} {lo : Nat}
    (h : (ev :: tl).map (fun e => e.index) = List.range' lo (ev :: tl).length) :
    ev.index = lo ∧ tl.map (fun e => e.index) = List.range' (lo + 1) tl.length := by
  rw [List.map_cons, List.length_cons, List.range'_succ] at h
  exact ⟨by injection h, by injection h⟩

theorem peek_at_range {α : Type} :
    ∀ (events : List (BusEvent α)) (lo : Nat),
      events.map (fun ev => ev.index) = List.range' lo events.length →
      ∀ k, peekEntry events (lo + k) = events[k]? := by
  intro events
  induction events with
  | nil => intro lo h k; simp [peekEntry]
  | cons ev tl ih =>
    intro lo h k
    obtain ⟨h1, h2⟩ := range'_cons_inv h
    cases k with
    | zero =>
      rw [peekEntry, List.find?_cons]
      have hb : (ev.index == lo + 0) = true := by simp [h1]
      rw [hb]
      simp
    | succ k2 =>
      rw [peekEntry, List.find?_cons]
      have hne : (ev.index == lo + (k2 + 1)) = false := by
        simp only [beq_eq_false_iff_ne, ne_eq, h1]
        omega
      rw [hne]
      have harith : lo + (k2 + 1) = (lo + 1) + k2 := by omega
      have h3 := ih (lo + 1) h2 k2
      rw [peekEntry] at h3
      rw [harith, h3]
      simp

theorem recvAllFuel_drain {α : Type} {events : List (BusEvent α)} {lo : Nat}
    (h : events.map (fun ev => ev.index) = List.range' lo events.length) :
    ∀ (fuel k : Nat), k ≤ events.length → events.length - k < fuel →
      recvAllFuel events fuel (lo + k) = (events.drop k, lo + events.length) := by
  intro fuel
  induction fuel with
  | zero => intro k hk hf; exact absurd hf (by omega)
  | succ fuel ih =>
    intro k hk hf
    by_cases hkn : k = events.length
    · subst hkn
      rw [recvAllFuel]
      have hpeek : peekEntry events (lo + events.length) = Option.none := by
        rw [peek_at_range events lo h]
        exact List.getElem?_eq_none (le_refl _)
      rw [hpeek, List.drop_length]
    · have hklt : k < events.length := lt_of_le_of_ne hk hkn
      rw [recvAllFuel]
      have hpeek : peekEntry events (lo + k) = some events[k] := by
        rw [peek_at_range events lo h k, List.getElem?_eq_getElem hklt]
      rw [hpeek]
      have harith : lo + k + 1 = lo + (k + 1) := by omega
      rw [harith, ih (k + 1) hklt (by omega)]
      show (events[k] :: events.drop (k + 1), lo + events.length)
          = (events.drop k, lo + events.length)
      rw [← List.drop_eq_getElem_cons hklt]

theorem drop_eq_filter_index {α : Type} :
    ∀ (events : List (BusEvent α)) (lo : Nat),
      events.map (fun ev => ev.index) = List.range' lo events.length →
      ∀ k, events.drop k = events.filter (fun ev => decide (lo + k ≤ ev.index)) := by
  intro events
  induction events with
  | nil => intro lo h k; simp
  | cons ev tl ih =>
    intro lo h k
    obtain ⟨h1, h2⟩ := range'_cons_inv h
    have htl : ∀ x ∈ tl, lo + 1 ≤ x.index := by
      intro x hx
      have : x.index ∈ tl.map (fun e => e.index) := List.mem_map.mpr ⟨x, hx, rfl⟩
      rw [h2] at this
      exact (List.mem_range'_1.mp this).1
    cases k with
    | zero =>
      rw [List.drop_zero, List.filter_cons]
      have hp : decide (lo + 0 ≤ ev.index) = true := by simp [h1]
      rw [hp]
      simp only [if_true]
      congr 1
      symm
      rw [List.filter_eq_self]
      intro x hx
      have := htl x hx
      simp only [decide_eq_true_eq]
      omega
    | succ k2 =>
      rw [List.drop_succ_cons, List.filter_cons]
      have hp : decide (lo + (k2 + 1) ≤ ev.index) = false := by
        simp only [decide_eq_false_iff_not, h1]
        omega
      rw [hp]
      rw [if_neg (by decide)]
      have harith : lo + (k2 + 1) = (lo + 1) + k2 := by omega
      rw [harith]
      exact ih (lo + 1) h2 k2

theorem recv_all_complete {α : Type} {events : List (BusEvent α)} {lo r : Nat}
    (h : events.map (fun ev => ev.index) = List.range' lo events.length)
    (hr : lo ≤ r) :
    (recv_all events r).1 = events.filter (fun ev => decide (r ≤ ev.index)) := by
  by_cases hcase : r ≤ lo + events.length
  · have hk : r = lo + (r - lo) := by omega
    rw [recv_all, hk, recvAllFuel_drain h _ _ (by omega) (by omega)]
    exact drop_eq_filter_index events lo h (r - lo)
  · rw [recv_all, recvAllFuel]
    have hpeek : peekEntry events r = Option.none := by
      cases hp : peekEntry events r with
      | none => rfl
      | some ev =>
        obtain ⟨hidx, hmem⟩ := peekEntry_eq_some_index hp
        have : ev.index ∈ events.map (fun e => e.index) := List.mem_map.mpr ⟨ev, hmem, rfl⟩
        rw [h] at this
        have := (List.mem_range'_1.mp this).2
        omega
    rw [hpeek]
    show ([] : List (BusEvent α)) = events.filter (fun ev => decide (r ≤ ev.index))
    symm
    rw [List.filter_eq_nil_iff]
    intro ev hev
    have : ev.index ∈ events.map (fun e => e.index) := List.mem_map.mpr ⟨ev, hev, rfl⟩
    rw [h] at this
    have := (List.mem_range'_1.mp this).2
    simp only [decide_eq_true_eq]
    omega

theorem recvAllFuel_out_spec {α : Type} (events : List (BusEvent α)) :
    ∀ (fuel r : Nat),
      (recvAllFuel events fuel r).1.map (fun ev => ev.index)
          = List.range' r (recvAllFuel events fuel r).1.length
      ∧ (recvAllFuel events fuel r).2 = r + (recvAllFuel events fuel r).1.length := by
  intro fuel
  induction fuel with
  | zero => intro r; simp [recvAllFuel]
  | succ fuel ih =>
    intro r
    rw [recvAllFuel]
    cases hp : peekEntry events r with
    | none => simp
    | some ev =>
      have hidx := (peekEntry_eq_some_index hp).1
      obtain ⟨ih1, ih2⟩ := ih (r + 1)
      constructor
      · simp only [List.map_cons, List.length_cons, hidx, List.range'_succ]
        rw [ih1]
      · simp only [List.length_cons, ih2]
        omega

theorem busRun_spec {α : Type} :
    ∀ (ops : List (BusOp α)) (s : BusSys α),
      List.Chain' (fun a b => a.index < b.index) (busRun s ops).2
      ∧ (∀ ev ∈ (busRun s ops).2,
          s.cursor ≤ ev.index ∧ ev.index < (busRun s ops).1.cursor)
      ∧ s.cursor ≤ (busRun s ops).1.cursor := by
  intro ops
  induction ops with
  | nil =>
    intro s
    refine ⟨List.chain'_nil, ?_, le_refl _⟩
    intro ev hev
    cases hev
  | cons op rest ih =>
    intro s
    cases op with
    | send t v =>
      rw [busRun]
      have hstep : busStep s (.send t v) = (⟨s.sender.send t v, s.cursor⟩, []) := rfl
      rw [hstep]
      obtain ⟨c1, c2, c3⟩ := ih ⟨s.sender.send t v, s.cursor⟩
      exact ⟨by simpa using c1, by simpa using c2, c3⟩
    | recvAll =>
      rw [busRun]
      have hstep : busStep s .recvAll =
          (⟨s.sender, (recv_all s.sender.events s.cursor).2⟩,
           (recv_all s.sender.events s.cursor).1) := rfl
      rw [hstep]
      obtain ⟨hmap, hcur⟩ :=
        recvAllFuel_out_spec s.sender.events (s.sender.events.length + 1) s.cursor
      have hmap1 : (recv_all s.sender.events s.cursor).1.map (fun ev => ev.index)
          = List.range' s.cursor (recv_all s.sender.events s.cursor).1.length := hmap
      have hcur1 : (recv_all s.sender.events s.cursor).2
          = s.cursor + (recv_all s.sender.events s.cursor).1.length := hcur
      obtain ⟨c1, c2, c3⟩ := ih ⟨s.sender, (recv_all s.sender.events s.cursor).2⟩
      have c2b : ∀ ev ∈ (busRun (⟨s.sender, (recv_all s.sender.events s.cursor).2⟩ :
            BusSys α) rest).2,
          (recv_all s.sender.events s.cursor).2 ≤ ev.index
            ∧ ev.index < (busRun (⟨s.sender, (recv_all s.sender.events s.cursor).2⟩ :
                BusSys α) rest).1.cursor := c2
      have c3b : (recv_all s.sender.events s.cursor).2
          ≤ (busRun (⟨s.sender, (recv_all s.sender.events s.cursor).2⟩ :
              BusSys α) rest).1.cursor := c3
      have hchain1 : List.Chain' (fun a b => a.index < b.index)
          (recv_all s.sender.events s.cursor).1 := by
        have hc : List.Chain' (fun a b => a < b)
            ((recv_all s.sender.events s.cursor).1.map (fun ev => ev.index)) := by
          rw [hmap1]
          exact (List.pairwise_lt_range' _ _).chain'
        exact (List.chain'_map (fun ev : BusEvent α => ev.index)).mp hc
      have hout1_bounds : ∀ ev ∈ (recv_all s.sender.events s.cursor).1,
          s.cursor ≤ ev.index
            ∧ ev.index < s.cursor + (recv_all s.sender.events s.cursor).1.length := by
        intro ev hev
        have hm := List.mem_map_of_mem (fun e : BusEvent α => e.index) hev
        rw [hmap1] at hm
        exact List.mem_range'_1.mp hm
      refine ⟨?_, ?_, ?_⟩
      · show List.Chain' (fun a b => a.index < b.index)
          ((recv_all s.sender.events s.cursor).1
            ++ (busRun (⟨s.sender, (recv_all s.sender.events s.cursor).2⟩ :
              BusSys α) rest).2)
        rw [List.chain'_append]
        refine ⟨hchain1, c1, ?_⟩
        intro x hx y hy
        have hxmem := List.mem_of_mem_getLast? hx
        have hymem := List.mem_of_mem_head? hy
        have hxb := (hout1_bounds x hxmem).2
        have hyb := (c2b y hymem).1
        omega
      · intro ev hev
        show s.cursor ≤ ev.index
          ∧ ev.index < (busRun (⟨s.sender, (recv_all s.sender.events s.cursor).2⟩ :
              BusSys α) rest).1.cursor
        have hev2 : ev ∈ (recv_all s.sender.events s.cursor).1
            ++ (busRun (⟨s.sender, (recv_all s.sender.events s.cursor).2⟩ :
              BusSys α) rest).2 := hev
        rcases List.mem_append.mp hev2 with h1 | h2
        · obtain ⟨hb1, hb2⟩ := hout1_bounds ev h1
          refine ⟨hb1, ?_⟩
          omega
        · obtain ⟨hb1, hb2⟩ := c2b ev h2
          exact ⟨by omega, hb2⟩
      · show s.cursor ≤ (busRun (⟨s.sender, (recv_all s.sender.events s.cursor).2⟩ :
            BusSys α) rest).1.cursor
        omega

/-! ## C6: the sparse/dense invariant of ComponentSet -/

theorem ComponentSet.reserve_idxAt (s : ComponentSet) (hid : Nat) (e : EntityId) :
    (s.reserve_entity_component_indices hid).idxAt e = s.idxAt e := by
  rw [ComponentSet.reserve_entity_component_indices]
  split
  · exact getD_pad _ _ _
  · rfl

theorem ComponentSet.reserve_components (s : ComponentSet) (hid : Nat) :
    (s.reserve_entity_component_indices hid).components = s.components := by
  rw [ComponentSet.reserve_entity_component_indices]
  split <;> rfl

theorem ComponentSet.reserve_deleted (s : ComponentSet) (hid : Nat) :
    (s.reserve_entity_component_indices hid).deleted_component_indices
      = s.deleted_component_indices := by
  rw [ComponentSet.reserve_entity_component_indices]
  split <;> rfl

theorem ComponentSet.reserve_length (s : ComponentSet) (hid : Nat) :
    hid < (s.reserve_entity_component_indices hid).entity_component_indices.length := by
  rw [ComponentSet.reserve_entity_component_indices]
  split
  · rename_i h
    simp only [List.length_append, List.length_replicate]
    omega
  · rename_i h
    omega

/-- The sparse/dense invariant of a ComponentSet, stated against the
functional model m (last value set per entity): lookups agree with m;
every sparse entry points at an occupied dense slot; no two sparse
entries share a slot; free-list slots are in range, empty, and
unreferenced; the free list has no duplicates; and every occupied slot
is referenced by some sparse entry. -/
def SetInv (s : ComponentSet) (m : EntityId → Option Component) : Prop :=
  (∀ e, s.get e = m e)
  ∧ (∀ e i, s.idxAt e = some i → (s.compAt i).isSome = true)
  ∧ (∀ e1 e2 i, s.idxAt e1 = some i → s.idxAt e2 = some i → e1 = e2)
  ∧ (∀ i, i ∈ s.deleted_component_indices →
      i < s.components.length ∧ s.compAt i = Option.none ∧ ∀ e, s.idxAt e ≠ some i)
  ∧ s.deleted_component_indices.Nodup
  ∧ (∀ i, (s.compAt i).isSome = true → ∃ e, s.idxAt e = some i)

theorem SetInv.new (cid : ComponentId) :
    SetInv (ComponentSet.new cid) (fun _ => Option.none) := by
  refine ⟨?_, ?_, ?_, ?_, ?_, ?_⟩
  · intro e; rfl
  · intro e i h; cases h
  · intro e1 e2 i h; cases h
  · intro i h; cases h
  · exact List.nodup_nil
  · intro i h; cases h

theorem compAt_lt_length {s : ComponentSet} {i : Nat}
    (h : (s.compAt i).isSome = true) : i < s.components.length :=
  getD_isSome_lt h

theorem idxAt_lt_length {s : ComponentSet} {e : EntityId} {i : Nat}
    (h : s.idxAt e = some i) : e < s.entity_component_indices.length :=
  getD_lt_of_eq_some h

/-- Preservation of the invariant by an in-place overwrite (the branch
of set where the entity already has a value). -/
theorem setInv_overwrite {s : ComponentSet} {m : EntityId → Option Component}
    (h : SetInv s m) (e : EntityId) (c : Component) {i : Nat}
    (hie : s.idxAt e = some i) {old : Component} (hci : s.compAt i = some old) :
    SetInv { s with components := s.components.set i (some c) }
      (fun x => if x = e then some c else m x) := by
  obtain ⟨h1, h2, h3, h4, h5, h6⟩ := h
  have hilt : i < s.components.length := getD_lt_of_eq_some hci
  have hIdx : ∀ x, ({ s with components := s.components.set i (some c) } :
      ComponentSet).idxAt x = s.idxAt x := fun x => rfl
  have hComp : ∀ j, ({ s with components := s.components.set i (some c) } :
      ComponentSet).compAt j = if j = i then some c else s.compAt j := by
    intro j
    by_cases hj : j = i
    · subst hj
      rw [if_pos rfl]
      exact getD_set_self _ _ _ _ hilt
    · rw [if_neg hj]
      exact getD_set_ne _ _ _ (fun hh => hj hh.symm)
  refine ⟨?_, ?_, ?_, ?_, h5, ?_⟩
  · intro x
    dsimp only
    rw [ComponentSet.get, hIdx x]
    by_cases hx : x = e
    · subst hx
      rw [hie, Option.some_bind, hComp i]
      simp
    · rw [if_neg hx]
      cases hx2 : s.idxAt x with
      | none =>
        have hg := h1 x
        rw [ComponentSet.get, hx2] at hg
        exact hg
      | some j =>
        have hji : j ≠ i := fun hji => hx (h3 x e i (hji ▸ hx2) hie)
        rw [Option.some_bind, hComp j, if_neg hji]
        have hg := h1 x
        rw [ComponentSet.get, hx2, Option.some_bind] at hg
        exact hg
  · intro x j hx
    rw [hIdx x] at hx
    rw [hComp j]
    by_cases hj : j = i
    · rw [if_pos hj]; rfl
    · rw [if_neg hj]
      exact h2 x j hx
  · intro e1 e2 j he1 he2
    rw [hIdx e1] at he1
    rw [hIdx e2] at he2
    exact h3 e1 e2 j he1 he2
  · intro j hj
    obtain ⟨hl, hc, hr⟩ := h4 j hj
    have hji : j ≠ i := by
      intro hji
      rw [hji, hci] at hc
      cases hc
    refine ⟨by simpa using hl, ?_, ?_⟩
    · rw [hComp j, if_neg hji]
      exact hc
    · intro x
      rw [hIdx x]
      exact hr x
  · intro j hj
    rw [hComp j] at hj
    by_cases hji : j = i
    · subst hji
      exact ⟨e, hie⟩
    · rw [if_neg hji] at hj
      exact h6 j hj

/-- Preservation of the invariant when a tombstoned slot is reused (the
branch of setFresh popping the free list). -/
theorem setInv_fresh_reuse {s : ComponentSet} {m : EntityId → Option Component}
    (h : SetInv s m) (e : EntityId) (c : Component) {ci : Nat} {rest : List Nat}
    (hie : s.idxAt e = Option.none)
    (hdel0 : s.deleted_component_indices = ci :: rest) :
    SetInv
      { s.reserve_entity_component_indices e with
        components := (s.reserve_entity_component_indices e).components.set ci (some c),
        entity_component_indices :=
          (s.reserve_entity_component_indices e).entity_component_indices.set e (some ci),
        deleted_component_indices := rest }
      (fun x => if x = e then some c else m x) := by
  obtain ⟨h1, h2, h3, h4, h5, h6⟩ := h
  obtain ⟨hcilt, hcinone, hciref⟩ :=
    h4 ci (by rw [hdel0]; exact List.mem_cons_self _ _)
  have hreslen := ComponentSet.reserve_length s e
  have hIdx : ∀ x,
      ({ s.reserve_entity_component_indices e with
        components := (s.reserve_entity_component_indices e).components.set ci (some c),
        entity_component_indices :=
          (s.reserve_entity_component_indices e).entity_component_indices.set e (some ci),
        deleted_component_indices := rest } : ComponentSet).idxAt x
      = if x = e then some ci else s.idxAt x := by
    intro x
    show ((s.reserve_entity_component_indices e).entity_component_indices.set e
        (some ci)).getD x Option.none = _
    by_cases hx : x = e
    · subst hx
      rw [if_pos rfl]
      exact getD_set_self _ _ _ _ hreslen
    · rw [if_neg hx, getD_set_ne _ _ _ (fun hh => hx hh.symm)]
      exact ComponentSet.reserve_idxAt s e x
  have hComp : ∀ j,
      ({ s.reserve_entity_component_indices e with
        components := (s.reserve_entity_component_indices e).components.set ci (some c),
        entity_component_indices :=
          (s.reserve_entity_component_indices e).entity_component_indices.set e (some ci),
        deleted_component_indices := rest } : ComponentSet).compAt j
      = if j = ci then some c else s.compAt j := by
    intro j
    show ((s.reserve_entity_component_indices e).components.set ci (some c)).getD j
        Option.none = _
    rw [ComponentSet.reserve_components]
    by_cases hj : j = ci
    · subst hj
      rw [if_pos rfl]
      exact getD_set_self _ _ _ _ hcilt
    · rw [if_neg hj]
      exact getD_set_ne _ _ _ (fun hh => hj hh.symm)
  have hnd0 : (ci :: rest).Nodup := by rw [← hdel0]; exact h5
  refine ⟨?_, ?_, ?_, ?_, ?_, ?_⟩
  · intro x
    dsimp only
    rw [ComponentSet.get, hIdx x]
    by_cases hx : x = e
    · subst hx
      rw [if_pos rfl, Option.some_bind, hComp ci]
      simp
    · rw [if_neg hx, if_neg hx]
      cases hx2 : s.idxAt x with
      | none =>
        have hg := h1 x
        rw [ComponentSet.get, hx2] at hg
        exact hg
      | some j =>
        have hji : j ≠ ci := fun hji => hciref x (hji ▸ hx2)
        rw [Option.some_bind, hComp j, if_neg hji]
        have hg := h1 x
        rw [ComponentSet.get, hx2, Option.some_bind] at hg
        exact hg
  · intro x j hx
    rw [hIdx x] at hx
    rw [hComp j]
    by_cases hx2 : x = e
    · rw [if_pos hx2] at hx
      cases hx
      rw [if_pos rfl]
      rfl
    · rw [if_neg hx2] at hx
      by_cases hj : j = ci
      · exact absurd (hj ▸ hx) (hciref x)
      · rw [if_neg hj]
        exact h2 x j hx
  · intro e1 e2 j he1 he2
    rw [hIdx e1] at he1
    rw [hIdx e2] at he2
    by_cases h1e : e1 = e <;> by_cases h2e : e2 = e
    · rw [h1e, h2e]
    · rw [if_pos h1e] at he1
      rw [if_neg h2e] at he2
      cases he1
      exact absurd he2 (hciref e2)
    · rw [if_neg h1e] at he1
      rw [if_pos h2e] at he2
      cases he2
      exact absurd he1 (hciref e1)
    · rw [if_neg h1e] at he1
      rw [if_neg h2e] at he2
      exact h3 e1 e2 j he1 he2
  · intro j hj
    have hjmem : j ∈ s.deleted_component_indices := by
      rw [hdel0]
      exact List.mem_cons_of_mem _ hj
    obtain ⟨hl, hc, hr⟩ := h4 j hjmem
    have hjci : j ≠ ci := by
      intro hji
      subst hji
      exact (List.nodup_cons.mp hnd0).1 hj
    refine ⟨?_, ?_, ?_⟩
    · show j < ((s.reserve_entity_component_indices e).components.set ci
        (some c)).length
      rw [List.length_set, ComponentSet.reserve_components]
      exact hl
    · rw [hComp j, if_neg hjci]
      exact hc
    · intro x
      rw [hIdx x]
      by_cases hx : x = e
      · rw [if_pos hx]
        intro hcontra
        exact hjci (by injection hcontra with hh; exact hh.symm)
      · rw [if_neg hx]
        exact hr x
  · exact (List.nodup_cons.mp hnd0).2
  · intro j hj
    rw [hComp j] at hj
    by_cases hji : j = ci
    · subst hji
      exact ⟨e, by rw [hIdx e, if_pos rfl]⟩
    · rw [if_neg hji] at hj
      rcases h6 j hj with ⟨x, hx⟩
      have hxe : x ≠ e := by
        intro hxe
        rw [hxe, hie] at hx
        cases hx
      exact ⟨x, by rw [hIdx x, if_neg hxe]; exact hx⟩

/-- Preservation of the invariant when a new slot is appended (the
branch of setFresh with an empty free list). -/
theorem setInv_fresh_append {s : ComponentSet} {m : EntityId → Option Component}
    (h : SetInv s m) (e : EntityId) (c : Component)
    (hie : s.idxAt e = Option.none)
    (hdel0 : s.deleted_component_indices = []) :
    SetInv
      { s.reserve_entity_component_indices e with
        components := (s.reserve_entity_component_indices e).components ++ [some c],
        entity_component_indices :=
          (s.reserve_entity_component_indices e).entity_component_indices.set e
            (some (s.reserve_entity_component_indices e).components.length) }
      (fun x => if x = e then some c else m x) := by
  obtain ⟨h1, h2, h3, h4, h5, h6⟩ := h
  have hreslen := ComponentSet.reserve_length s e
  have hL : (s.reserve_entity_component_indices e).components.length
      = s.components.length := by
    rw [ComponentSet.reserve_components]
  have hIdx : ∀ x,
      ({ s.reserve_entity_component_indices e with
        components := (s.reserve_entity_component_indices e).components ++ [some c],
        entity_component_indices :=
          (s.reserve_entity_component_indices e).entity_component_indices.set e
            (some (s.reserve_entity_component_indices e).components.length) } :
        ComponentSet).idxAt x
      = if x = e then some s.components.length else s.idxAt x := by
    intro x
    show ((s.reserve_entity_component_indices e).entity_component_indices.set e
        (some (s.reserve_entity_component_indices e).components.length)).getD x
        Option.none = _
    by_cases hx : x = e
    · subst hx
      rw [if_pos rfl, getD_set_self _ _ _ _ hreslen, hL]
    · rw [if_neg hx, getD_set_ne _ _ _ (fun hh => hx hh.symm)]
      exact ComponentSet.reserve_idxAt s e x
  have hComp : ∀ j,
      ({ s.reserve_entity_component_indices e with
        components := (s.reserve_entity_component_indices e).components ++ [some c],
        entity_component_indices :=
          (s.reserve_entity_component_indices e).entity_component_indices.set e
            (some (s.reserve_entity_component_indices e).components.length) } :
        ComponentSet).compAt j
      = if j = s.components.length then some c else s.compAt j := by
    intro j
    show ((s.reserve_entity_component_indices e).components ++ [some c]).getD j
        Option.none = _
    rw [ComponentSet.reserve_components]
    by_cases hj : j = s.components.length
    · subst hj
      rw [if_pos rfl, getD_append_right _ _ _ (le_refl _), Nat.sub_self]
      rfl
    · rw [if_neg hj]
      rcases lt_or_ge j s.components.length with hlt | hge
      · exact getD_append_left _ _ _ hlt
      · have hgt : s.components.length < j := lt_of_le_of_ne hge (fun hh => hj hh.symm)
        rw [getD_append_right _ _ _ (le_of_lt hgt)]
        have hr1 : ([some c] : List (Option Component)).getD
            (j - s.components.length) Option.none = Option.none := by
          refine getD_oob _ _ ?_
          simp only [List.length_singleton]
          omega
        have hr2 : s.compAt j = Option.none := getD_oob _ _ (le_of_lt hgt)
        rw [hr1, hr2]
  have hfresh : ∀ x, s.idxAt x ≠ some s.components.length := by
    intro x hx
    have := h2 x _ hx
    have := compAt_lt_length this
    omega
  refine ⟨?_, ?_, ?_, ?_, ?_, ?_⟩
  · intro x
    dsimp only
    rw [ComponentSet.get, hIdx x]
    by_cases hx : x = e
    · subst hx
      rw [if_pos rfl, Option.some_bind, hComp]
      simp
    · rw [if_neg hx, if_neg hx]
      cases hx2 : s.idxAt x with
      | none =>
        have hg := h1 x
        rw [ComponentSet.get, hx2] at hg
        exact hg
      | some j =>
        have hji : j ≠ s.components.length := fun hji => hfresh x (hji ▸ hx2)
        rw [Option.some_bind, hComp j, if_neg hji]
        have hg := h1 x
        rw [ComponentSet.get, hx2, Option.some_bind] at hg
        exact hg
  · intro x j hx
    rw [hIdx x] at hx
    rw [hComp j]
    by_cases hx2 : x = e
    · rw [if_pos hx2] at hx
      cases hx
      rw [if_pos rfl]
      rfl
    · rw [if_neg hx2] at hx
      by_cases hj : j = s.components.length
      · exact absurd (hj ▸ hx) (hfresh x)
      · rw [if_neg hj]
        exact h2 x j hx
  · intro e1 e2 j he1 he2
    rw [hIdx e1] at he1
    rw [hIdx e2] at he2
    by_cases h1e : e1 = e <;> by_cases h2e : e2 = e
    · rw [h1e, h2e]
    · rw [if_pos h1e] at he1
      rw [if_neg h2e] at he2
      cases he1
      exact absurd he2 (hfresh e2)
    · rw [if_neg h1e] at he1
      rw [if_pos h2e] at he2
      cases he2
      exact absurd he1 (hfresh e1)
    · rw [if_neg h1e] at he1
      rw [if_neg h2e] at he2
      exact h3 e1 e2 j he1 he2
  · intro j hj
    have : j ∈ s.deleted_component_indices := by
      have hd : ({ s.reserve_entity_component_indices e with
        components := (s.reserve_entity_component_indices e).components ++ [some c],
        entity_component_indices :=
          (s.reserve_entity_component_indices e).entity_component_indices.set e
            (some (s.reserve_entity_component_indices e).components.length) } :
        ComponentSet).deleted_component_indices = s.deleted_component_indices := by
        show (s.reserve_entity_component_indices e).deleted_component_indices = _
        exact ComponentSet.reserve_deleted s e
      rw [hd] at hj
      exact hj
    rw [hdel0] at this
    cases this
  · show (s.reserve_entity_component_indices e).deleted_component_indices.Nodup
    rw [ComponentSet.reserve_deleted, hdel0]
    exact List.nodup_nil
  · intro j hj
    rw [hComp j] at hj
    by_cases hji : j = s.components.length
    · subst hji
      exact ⟨e, by rw [hIdx e, if_pos rfl]⟩
    · rw [if_neg hji] at hj
      rcases h6 j hj with ⟨x, hx⟩
      have hxe : x ≠ e := by
        intro hxe
        rw [hxe, hie] at hx
        cases hx
      exact ⟨x, by rw [hIdx x, if_neg hxe]; exact hx⟩

/-- Preservation of the invariant by set. -/
theorem SetInv.set {s : ComponentSet} {m : EntityId → Option Component}
    (h : SetInv s m) (e : EntityId) (c : Component) :
    SetInv (s.set e c).2 (fun x => if x = e then some c else m x) := by
  cases hie : s.idxAt e with
  | some i =>
    cases hci : s.compAt i with
    | none =>
      have h2 := h.2.1 e i hie
      rw [hci] at h2
      cases h2
    | some old =>
      have heq : s.set e c
          = (some old, { s with components := s.components.set i (some c) }) := by
        simp only [ComponentSet.set, hie, hci]
      rw [heq]
      exact setInv_overwrite h e c hie hci
  | none =>
    have heq : s.set e c = s.setFresh e c := by
      simp only [ComponentSet.set, hie]
    rw [heq]
    have hresdel := ComponentSet.reserve_deleted s e
    cases hdel : (s.reserve_entity_component_indices e).deleted_component_indices with
    | cons ci rest =>
      have heq2 : s.setFresh e c
          = (Option.none,
            { s.reserve_entity_component_indices e with
              components :=
                (s.reserve_entity_component_indices e).components.set ci (some c),
              entity_component_indices :=
                (s.reserve_entity_component_indices e).entity_component_indices.set e
                  (some ci),
              deleted_component_indices := rest }) := by
        simp only [ComponentSet.setFresh, hdel]
      rw [heq2]
      exact setInv_fresh_reuse h e c hie (by rw [← hresdel, hdel])
    | nil =>
      have heq2 : s.setFresh e c
          = (Option.none,
            { s.reserve_entity_component_indices e with
              components := (s.reserve_entity_component_indices e).components
                ++ [some c],
              entity_component_indices :=
                (s.reserve_entity_component_indices e).entity_component_indices.set e
                  (some (s.reserve_entity_component_indices e).components.length) }) := by
        simp only [ComponentSet.setFresh, hdel]
      rw [heq2]
      exact setInv_fresh_append h e c hie (by rw [← hresdel, hdel])

/-- Preservation of the invariant by delete. -/
theorem SetInv.delete {s : ComponentSet} {m : EntityId → Option Component}
    (h : SetInv s m) (e : EntityId) :
    SetInv (s.delete e).2 (fun x => if x = e then Option.none else m x) := by
  obtain ⟨h1, h2, h3, h4, h5, h6⟩ := h
  cases hie : s.idxAt e with
  | none =>
    have heq : s.delete e = (Option.none, s) := by
      simp only [ComponentSet.delete, hie]
    rw [heq]
    refine ⟨?_, h2, h3, h4, h5, h6⟩
    intro x
    dsimp only
    by_cases hx : x = e
    · subst hx
      rw [if_pos rfl, ComponentSet.get, hie]
      rfl
    · rw [if_neg hx]
      exact h1 x
  | some ci =>
    have heq : s.delete e
        = (s.compAt ci,
          { s with
            deleted_component_indices := s.deleted_component_indices ++ [ci],
            entity_component_indices := s.entity_component_indices.set e Option.none,
            components := s.components.set ci Option.none }) := by
      simp only [ComponentSet.delete, hie]
    rw [heq]
    have hcisome := h2 e ci hie
    have hcilt : ci < s.components.length := compAt_lt_length hcisome
    have helt : e < s.entity_component_indices.length := idxAt_lt_length hie
    have hIdx : ∀ x,
        ({ s with
          deleted_component_indices := s.deleted_component_indices ++ [ci],
          entity_component_indices := s.entity_component_indices.set e Option.none,
          components := s.components.set ci Option.none } : ComponentSet).idxAt x
        = if x = e then Option.none else s.idxAt x := by
      intro x
      show (s.entity_component_indices.set e Option.none).getD x Option.none = _
      by_cases hx : x = e
      · subst hx
        rw [if_pos rfl]
        exact getD_set_self _ _ _ _ helt
      · rw [if_neg hx]
        exact getD_set_ne _ _ _ (fun hh => hx hh.symm)
    have hComp : ∀ j,
        ({ s with
          deleted_component_indices := s.deleted_component_indices ++ [ci],
          entity_component_indices := s.entity_component_indices.set e Option.none,
          components := s.components.set ci Option.none } : ComponentSet).compAt j
        = if j = ci then Option.none else s.compAt j := by
      intro j
      show (s.components.set ci Option.none).getD j Option.none = _
      by_cases hj : j = ci
      · subst hj
        rw [if_pos rfl]
        exact getD_set_self _ _ _ _ hcilt
      · rw [if_neg hj]
        exact getD_set_ne _ _ _ (fun hh => hj hh.symm)
    have hcinotdel : ci ∉ s.deleted_component_indices := by
      intro hmem
      obtain ⟨-, hc, -⟩ := h4 ci hmem
      rw [hc] at hcisome
      cases hcisome
    refine ⟨?_, ?_, ?_, ?_, ?_, ?_⟩
    · intro x
      dsimp only
      rw [ComponentSet.get, hIdx x]
      by_cases hx : x = e
      · subst hx
        rw [if_pos rfl, if_pos rfl]
        rfl
      · rw [if_neg hx, if_neg hx]
        cases hx2 : s.idxAt x with
        | none =>
          have hg := h1 x
          rw [ComponentSet.get, hx2] at hg
          exact hg
        | some j =>
          have hji : j ≠ ci := fun hji => hx (h3 x e ci (hji ▸ hx2) hie)
          rw [Option.some_bind, hComp j, if_neg hji]
          have hg := h1 x
          rw [ComponentSet.get, hx2, Option.some_bind] at hg
          exact hg
    · intro x j hx
      rw [hIdx x] at hx
      by_cases hx2 : x = e
      · rw [if_pos hx2] at hx
        cases hx
      · rw [if_neg hx2] at hx
        have hji : j ≠ ci := fun hji => hx2 (h3 x e ci (hji ▸ hx) hie)
        rw [hComp j, if_neg hji]
        exact h2 x j hx
    · intro e1 e2 j he1 he2
      rw [hIdx e1] at he1
      rw [hIdx e2] at he2
      by_cases h1e : e1 = e
      · rw [if_pos h1e] at he1
        cases he1
      · by_cases h2e : e2 = e
        · rw [if_pos h2e] at he2
          cases he2
        · rw [if_neg h1e] at he1
          rw [if_neg h2e] at he2
          exact h3 e1 e2 j he1 he2
    · intro j hj
      have hj2 : j ∈ s.deleted_component_indices ++ [ci] := hj
      rcases List.mem_append.mp hj2 with hold | hnew
      · obtain ⟨hl, hc, hr⟩ := h4 j hold
        have hji : j ≠ ci := by
          intro hji
          subst hji
          rw [hc] at hcisome
          cases hcisome
        refine ⟨by simpa using hl, ?_, ?_⟩
        · rw [hComp j, if_neg hji]
          exact hc
        · intro x
          rw [hIdx x]
          by_cases hx : x = e
          · rw [if_pos hx]
            intro hcontra
            cases hcontra
          · rw [if_neg hx]
            exact hr x
      · have hj3 : j = ci := by simpa using hnew
        subst hj3
        refine ⟨by simpa using hcilt, ?_, ?_⟩
        · rw [hComp j, if_pos rfl]
        · intro x
          rw [hIdx x]
          by_cases hx : x = e
          · rw [if_pos hx]
            intro hcontra
            cases hcontra
          · rw [if_neg hx]
            intro hcontra
            exact hx (h3 x e j hcontra hie)
    · show (s.deleted_component_indices ++ [ci]).Nodup
      rw [List.nodup_append]
      refine ⟨h5, List.nodup_singleton _, ?_⟩
      intro a ha hb
      have : a = ci := by simpa using hb
      subst this
      exact hcinotdel ha
    · intro j hj
      rw [hComp j] at hj
      by_cases hji : j = ci
      · rw [if_pos hji] at hj
        cases hj
      · rw [if_neg hji] at hj
        rcases h6 j hj with ⟨x, hx⟩
        have hxe : x ≠ e := by
          intro hxe
          subst hxe
          rw [hie] at hx
          refine hji ?_
          injection hx with hh
          exact hh.symm
        exact ⟨x, by rw [hIdx x, if_neg hxe]; exact hx⟩

/-- The invariant holds along every operation sequence. -/
theorem SetInv_foldl {s : ComponentSet} {m : EntityId → Option Component}
    (h : SetInv s m) :
    ∀ ops : List SetOp, SetInv (ops.foldl ComponentSet.applyOp s) (ops.foldl naiveStep m) := by
  intro ops
  induction ops generalizing s m with
  | nil => exact h
  | cons op rest ih =>
    rw [List.foldl_cons, List.foldl_cons]
    cases op with
    | set e c => exact ih (h.set e c)
    | del e => exact ih (h.delete e)

/-- C6: for every ComponentSet reachable by any sequence of set and
delete operations from a fresh set, the sparse/dense invariant holds:
a sparse entry points at an occupied dense slot holding exactly the
value last set for that entity (and not deleted since); every occupied
dense slot is pointed at by exactly the sparse entry of the entity it
was set for; and no slot index currently on the free list is
referenced by any sparse entry. -/
theorem c6_sparse_dense_invariant (cid : ComponentId) (ops : List SetOp) :
    (∀ e, (ComponentSet.runOps cid ops).get e = naiveRun ops e)
    ∧ (∀ e i, (ComponentSet.runOps cid ops).idxAt e = some i →
        ∃ c, (ComponentSet.runOps cid ops).compAt i = some c
          ∧ naiveRun ops e = some c)
    ∧ (∀ i c, (ComponentSet.runOps cid ops).compAt i = some c →
        ∃ e, (ComponentSet.runOps cid ops).idxAt e = some i
          ∧ naiveRun ops e = some c)
    ∧ (∀ i ∈ (ComponentSet.runOps cid ops).deleted_component_indices,
        ∀ e, (ComponentSet.runOps cid ops).idxAt e ≠ some i) := by
  have h := SetInv_foldl (SetInv.new cid) ops
  obtain ⟨h1, h2, h3, h4, h5, h6⟩ := h
  simp only [ComponentSet.runOps, naiveRun]
  refine ⟨h1, ?_, ?_, fun i hi e => (h4 i hi).2.2 e⟩
  · intro e i hidx
    have hsome := h2 e i hidx
    rcases Option.isSome_iff_exists.mp hsome with ⟨c, hc⟩
    refine ⟨c, hc, ?_⟩
    have hg := h1 e
    rw [ComponentSet.get, hidx, Option.some_bind, hc] at hg
    exact hg.symm
  · intro i c hc
    rcases h6 i (by rw [hc]; rfl) with ⟨e, he⟩
    refine ⟨e, he, ?_⟩
    have hg := h1 e
    rw [ComponentSet.get, he, Option.some_bind, hc] at hg
    exact hg.symm

/-- An operation sequence exercising tombstone reuse: entity 0 and 1
are set, entity 0 is deleted (freeing slot 0), and entity 2 reuses
slot 0. -/
def c6Ops : List SetOp :=
  [.set 0 ⟨5, .raw 1, true⟩, .set 1 ⟨5, .raw 2, true⟩, .del 0,
   .set 2 ⟨5, .raw 3, true⟩]

/-- Witness for C6: after the reuse sequence, the sparse entry of
entity 2 points at the reused slot 0, which holds exactly the value
last set for entity 2. -/
theorem c6_sparse_dense_invariant_witness :
    (ComponentSet.runOps 5 c6Ops).idxAt 2 = some 0
    ∧ (∃ c, (ComponentSet.runOps 5 c6Ops).compAt 0 = some c
        ∧ naiveRun c6Ops 2 = some c) :=
  ⟨by decide, (c6_sparse_dense_invariant 5 c6Ops).2.1 2 0 (by decide)⟩

/-! ## C8: the clean step performed by send -/

/-- Reachable sender states: the buffer holds consecutively indexed
entries ending right before next_index, and every named-receiver cursor
is at most next_index. Sends append index next_index and the cleaner
only drops from the front, so every state reached from a fresh sender
satisfies this. -/
def EventSender.wf {α : Type} (s : EventSender α) : Prop :=
  ∃ lo, s.events.map (fun ev => ev.index) = List.range' lo s.events.length
    ∧ lo + s.events.length = s.next_index
    ∧ ∀ p ∈ s.named_receivers, p.2 ≤ s.next_index

theorem range'_split (lo a b : Nat) :
    List.range' lo (a + b) = List.range' lo a ++ List.range' (lo + a) b := by
  have h := List.range'_append lo a b 1
  simp only [one_mul] at h
  rw [h]
  congr 1
  omega

/-- C8: the clean step performed by send removes buffer entries from
the front only (the removed entries form a prefix of the appended
buffer) and only when older than the retention duration (default 30);
a named receiver present before the send survives exactly when its
cursor is at least the index of the new buffer front — so it is removed
only when it has scrolled past the front and can never catch up, and a
receiver that is merely caught up with the sender (cursor equal to the
pre-send next index) is never dropped. -/
theorem c8_send_clean :
    ∀ (s : EventSender Nat) (t v : Nat), s.wf →
      (∃ dropped,
        dropped ++ (s.send t v).events
            = s.events ++ [⟨v, t, s.next_index⟩]
        ∧ ∀ ev ∈ dropped, s.event_expiration_time < t - ev.sent_at)
      ∧ (∃ fr rest, (s.send t v).events = fr :: rest
          ∧ ∀ p ∈ s.named_receivers,
              (p ∈ (s.send t v).named_receivers ↔ fr.index ≤ p.2))
      ∧ (∀ name, (name, s.next_index) ∈ s.named_receivers →
          (name, s.next_index) ∈ (s.send t v).named_receivers)
      ∧ (EventSender.default Nat).event_expiration_time = 30 := by
  intro s t v hwf
  obtain ⟨lo, hmap, hlen, hrec⟩ := hwf
  set pred : BusEvent Nat → Bool :=
    fun ev => decide (s.event_expiration_time < t - ev.sent_at) with hpred
  set newEv : BusEvent Nat := ⟨v, t, s.next_index⟩ with hnew
  set pushed : List (BusEvent Nat) := s.events ++ [newEv] with hpushed
  have hEv : (s.send t v).events = pushed.dropWhile pred := rfl
  have hNamed : (s.send t v).named_receivers
      = s.named_receivers.filter
          (fun p => (peekEntry (pushed.dropWhile pred) p.2).isSome) := rfl
  have hsplit : pushed.takeWhile pred ++ pushed.dropWhile pred = pushed :=
    List.takeWhile_append_dropWhile pred pushed
  -- the appended buffer still has consecutive indices
  have hpm : pushed.map (fun ev => ev.index)
      = List.range' lo (s.events.length + 1) := by
    rw [hpushed, List.map_append, hmap]
    have : List.range' lo (s.events.length + 1)
        = List.range' lo s.events.length ++ List.range' (lo + s.events.length) 1 :=
      range'_split lo s.events.length 1
    rw [this]
    congr 1
    simp [hnew, hlen]
  -- the new event is never dropped, so the kept part is nonempty
  have hprednew : pred newEv = false := by
    simp [hpred, hnew]
  have hkept_ne : pushed.dropWhile pred ≠ [] := by
    intro hnil
    have : newEv ∈ pushed.takeWhile pred := by
      have hmem : newEv ∈ pushed := by
        rw [hpushed]
        exact List.mem_append_right _ (List.mem_cons_self _ _)
      rw [← hsplit, hnil, List.append_nil] at hmem
      exact hmem
    have := List.mem_takeWhile_imp this
    rw [hprednew] at this
    cases this
  -- index structure of the kept suffix
  have hd_le : (pushed.takeWhile pred).length + (pushed.dropWhile pred).length
      = s.events.length + 1 := by
    have h := congrArg List.length hsplit
    rw [List.length_append] at h
    rw [h, hpushed, List.length_append, List.length_singleton]
  have hkm : (pushed.dropWhile pred).map (fun ev => ev.index)
      = List.range' (lo + (pushed.takeWhile pred).length)
          (pushed.dropWhile pred).length := by
    have h1 : (pushed.takeWhile pred).map (fun ev => ev.index)
        ++ (pushed.dropWhile pred).map (fun ev => ev.index)
        = List.range' lo (s.events.length + 1) := by
      rw [← List.map_append, hsplit, hpm]
    have h2 : List.range' lo (s.events.length + 1)
        = List.range' lo (pushed.takeWhile pred).length
          ++ List.range' (lo + (pushed.takeWhile pred).length)
              (pushed.dropWhile pred).length := by
      rw [← hd_le]
      exact range'_split _ _ _
    rw [h2] at h1
    exact (List.append_inj h1 (by simp)).2
  obtain ⟨fr, resttl, hfr⟩ := List.exists_cons_of_ne_nil hkept_ne
  have hfr_idx : fr.index = lo + (pushed.takeWhile pred).length := by
    have := hkm
    rw [hfr, List.map_cons] at this
    have hlenpos : (fr :: resttl).length = resttl.length + 1 := by simp
    rw [hlenpos, List.range'_succ] at this
    injection this
  have hd_lt : (pushed.takeWhile pred).length ≤ s.events.length := by
    have hpos : 0 < (pushed.dropWhile pred).length := by
      rw [hfr]; simp
    omega
  refine ⟨?_, ?_, ?_, rfl⟩
  · refine ⟨pushed.takeWhile pred, ?_, ?_⟩
    · rw [hEv, hsplit]
    · intro ev hev
      have := List.mem_takeWhile_imp hev
      rw [hpred] at this
      simpa using this
  · refine ⟨fr, resttl, by rw [hEv, hfr], ?_⟩
    intro p hp
    rw [hNamed]
    rw [List.mem_filter]
    constructor
    · rintro ⟨-, hpeek⟩
      rw [peekEntry_isSome_iff, hkm] at hpeek
      have := (List.mem_range'_1.mp hpeek).1
      omega
    · intro hge
      refine ⟨hp, ?_⟩
      rw [peekEntry_isSome_iff, hkm]
      rw [List.mem_range'_1]
      have hub := hrec p hp
      rw [hfr_idx] at hge
      omega
  · intro name hmem
    rw [hNamed, List.mem_filter]
    refine ⟨hmem, ?_⟩
    rw [peekEntry_isSome_iff, hkm, List.mem_range'_1]
    omega

/-- Witness for C8: a concrete sender with one expired entry, a
scrolled-past receiver and a caught-up receiver; the send drops exactly
the expired front entry and exactly the scrolled-past receiver. -/
theorem c8_send_clean_witness :
    (⟨30, [⟨10, 0, 0⟩], [("a", 0), ("b", 1)], 1⟩ : EventSender Nat).wf
    ∧ ((∃ dropped,
        dropped ++ ((⟨30, [⟨10, 0, 0⟩], [("a", 0), ("b", 1)], 1⟩ :
            EventSender Nat).send 100 42).events
            = [⟨10, 0, 0⟩, ⟨42, 100, 1⟩]
        ∧ ∀ ev ∈ dropped, 30 < 100 - ev.sent_at)
      ∧ (∃ fr rest, ((⟨30, [⟨10, 0, 0⟩], [("a", 0), ("b", 1)], 1⟩ :
            EventSender Nat).send 100 42).events = fr :: rest
          ∧ ∀ p ∈ [(("a" : String), (0 : Nat)), ("b", 1)],
              (p ∈ ((⟨30, [⟨10, 0, 0⟩], [("a", 0), ("b", 1)], 1⟩ :
                  EventSender Nat).send 100 42).named_receivers ↔ fr.index ≤ p.2))
      ∧ (∀ name, (name, 1) ∈ [(("a" : String), (0 : Nat)), ("b", 1)] →
          (name, 1) ∈ ((⟨30, [⟨10, 0, 0⟩], [("a", 0), ("b", 1)], 1⟩ :
              EventSender Nat).send 100 42).named_receivers)
      ∧ (EventSender.default Nat).event_expiration_time = 30) :=
  ⟨⟨0, by decide, by decide, by decide⟩,
   c8_send_clean ⟨30, [⟨10, 0, 0⟩], [("a", 0), ("b", 1)], 1⟩ 100 42
     ⟨0, by decide, by decide, by decide⟩⟩

/-! ## C5: receiver ordering and completeness -/

/-- Counterexample to C5 as stated: the buffer retains exactly the
entry with index 1 (index 0 expired) while the receiver cursor is 0.
The entry is retained and indexed after the cursor, yet recv_all
returns nothing — recv demands an exact index match, so a receiver that
fell behind the retention window stalls forever (the cursor does not
advance either, as the second conjunct shows, so every later call is
identical). The last conjunct reaches such a state through the public
interface: subscribe at cursor 0, send at time 0, send at time 100 with
a 30 unit retention, then recv_all. -/
theorem c5_counterexample :
    (recv_all (α := Nat) [⟨5, 0, 1⟩] 0).1 = []
    ∧ (recv_all (α := Nat) [⟨5, 0, 1⟩] 0).2 = 0
    ∧ [⟨5, 0, 1⟩].filter (fun ev : BusEvent Nat => decide (0 ≤ ev.index)) = [⟨5, 0, 1⟩]
    ∧ (busRun (α := Nat) ⟨EventSender.default Nat, 0⟩
        [.send 0 11, .send 100 22, .recvAll]).2 = []
    ∧ (busRun (α := Nat) ⟨EventSender.default Nat, 0⟩
        [.send 0 11, .send 100 22, .recvAll]).1
        = ⟨⟨30, [⟨22, 100, 1⟩], [], 2⟩, 0⟩ := by
  decide

/-- C5 (amended): across any interleaving of sends and recv_all calls,
the delivered entries have strictly increasing send indices (no entry
is delivered twice or out of order); and a recv_all from a buffer of
consecutively indexed entries returns exactly the retained entries
indexed at or after the cursor — in buffer order, hence each exactly
once and in strictly increasing index order — provided the cursor has
not fallen behind the oldest retained index. -/
theorem c5_recv_all_order_and_completeness :
    (∀ (s : BusSys Nat) (ops : List (BusOp Nat)),
      List.Chain' (fun a b => a.index < b.index) (busRun s ops).2)
    ∧ (∀ (events : List (BusEvent Nat)) (lo r : Nat),
        events.map (fun ev => ev.index) = List.range' lo events.length →
        lo ≤ r →
        (recv_all events r).1 = events.filter (fun ev => decide (r ≤ ev.index))) :=
  ⟨fun s ops => (busRun_spec ops s).1,
   fun _ _ _ h hr => recv_all_complete h hr⟩

/-- Witness for C5: a concrete buffer [index 1, index 2] with cursor 1
satisfies the contiguity and no-fall-behind hypotheses, and recv_all
drains both entries. -/
theorem c5_recv_all_order_and_completeness_witness :
    (([⟨7, 0, 1⟩, ⟨8, 0, 2⟩] : List (BusEvent Nat)).map (fun ev => ev.index)
        = List.range' 1 ([⟨7, 0, 1⟩, ⟨8, 0, 2⟩] : List (BusEvent Nat)).length
      ∧ 1 ≤ 1)
    ∧ (recv_all (α := Nat) [⟨7, 0, 1⟩, ⟨8, 0, 2⟩] 1).1
        = ([⟨7, 0, 1⟩, ⟨8, 0, 2⟩] : List (BusEvent Nat)).filter
            (fun ev => decide (1 ≤ ev.index)) :=
  ⟨⟨by decide, by decide⟩,
   c5_recv_all_order_and_completeness.2 [⟨7, 0, 1⟩, ⟨8, 0, 2⟩] 1 1
     (by decide) (by decide)⟩

end Hydrogen
